import Mathlib

/-!
# Pathfinding visualiser: breadth-first search on a grid

A shallow embedding of `src/main.cpp` (`isValid`, `findShortestPath`,
`handleEvents`) and the properties of the search and of the event loop
established over it.

* Coordinates are `Int`, as in the source (`x + dx[i]` may be `-1`, and
  `(-1,-1)` is the "no parent" sentinel).  All values stay far below the
  range of a machine `int`, so no wrap-around is modelled.
* The source fixes the grid at `GRID_WIDTH × GRID_HEIGHT` (40 × 30).  The
  model takes the width `W` and height `H` as parameters; everything below
  holds for every `W` and `H`.
* A `std::vector<std::vector<T>>` of `W` columns of `H` entries is a
  `Table T`: its contents as a function of the index pair.  In
  `findShortestPath` every indexing of `visited`, `parent` and `grid` goes
  through `readAt`/`writeAt`, which
  report `Fault.outOfRange` for an index outside `[0,W) × [0,H)` (undefined
  behaviour in the source).  The one exception is the read of `grid[x][y]`
  inside `isValid`, which sits behind the short-circuiting bounds tests.
* The two `while` loops take a fuel argument; running dry is reported as
  `Fault.noFuel`.  `findShortestPath` supplies `W*H+1` and `W*H`, which is
  shown to be enough (`findShortestPath_spec`).
* `findShortestPath` returns `void`; its effect is the new global grid.  The
  model returns that grid and, for the statements, the cells the
  reconstruction loop went through.
* `handleEvents` is modelled on the state `App` (the global grid and the four
  coordinates that `main` passes by reference), one `Event` at a time.  Its
  grid accesses sit behind its explicit bounds tests.  `SDL_QUIT`, which ends
  the process, and the drawing code are left out.
-/

namespace Pathfinding

/-! ## Data model -/

/-- The source's `enum class CellState`. -/
inductive CellState
  | EMPTY
  | WALL
  | START
  | TARGET
  | PATH
  deriving DecidableEq, Repr

open CellState

def SCREEN_WIDTH : Nat := 800
def SCREEN_HEIGHT : Nat := 600
def CELL_SIZE : Nat := 20
def GRID_WIDTH : Nat := SCREEN_WIDTH / CELL_SIZE
def GRID_HEIGHT : Nat := SCREEN_HEIGHT / CELL_SIZE

/-- A grid coordinate `(x, y)`; the source's `std::pair<int, int>`. -/
abbrev Cell := Int × Int

/-- Contents of a two-dimensional vector, as a function of the index `[x][y]`. -/
abbrev Table (α : Type) := Int → Int → α

/-- The global `grid`. -/
abbrev Grid := Table CellState

/-- The only ways the model of the source can fail to produce a grid. -/
inductive Fault
  | outOfRange
  | noFuel
  deriving DecidableEq, Repr

/-- Index `[x][y]` lies inside a `W × H` vector of vectors. -/
def inBounds (W H : Nat) (x y : Int) : Bool :=
  decide (0 ≤ x) && decide (x < (W : Int)) && decide (0 ≤ y) && decide (y < (H : Int))

/-- The table after `t[x][y] = v`. -/
def Table.set {α : Type} (t : Table α) (x y : Int) (v : α) : Table α :=
  fun a b => if a = x ∧ b = y then v else t a b

/-- A read `t[x][y]` of a `W × H` vector of vectors. -/
def readAt {α : Type} (W H : Nat) (t : Table α) (x y : Int) : Except Fault α :=
  if inBounds W H x y then .ok (t x y) else .error .outOfRange

/-- A write `t[x][y] = v` to a `W × H` vector of vectors. -/
def writeAt {α : Type} (W H : Nat) (t : Table α) (x y : Int) (v : α) :
    Except Fault (Table α) :=
  if inBounds W H x y then .ok (t.set x y v) else .error .outOfRange

/-- The source's `isValid`: the bounds tests short-circuit before `grid[x][y]`
is read. -/
def isValid (W H : Nat) (grid : Grid) (x y : Int) : Bool :=
  decide (x ≥ 0) && decide (x < (W : Int)) && decide (y ≥ 0) && decide (y < (H : Int))
    && decide (grid x y ≠ WALL)

/-! ## The search -/

/-- The locals of `findShortestPath` that the main loop updates. -/
structure Search where
  visited : Table Bool
  parent : Table Cell
  q : List Cell

/-- The arrays `dx`, `dy`, paired by index `i = 0..3`. -/
def dirs : List (Int × Int) := [(-1, 0), (1, 0), (0, -1), (0, 1)]

/-- One iteration of the `for` loop at the dequeued cell `(x, y)`, for the
direction `d = (dx[i], dy[i])`. -/
def visit (W H : Nat) (grid : Grid) (x y : Int) (st : Search) (d : Int × Int) :
    Except Fault Search :=
  let nx := x + d.1
  let ny := y + d.2
  if isValid W H grid nx ny then do
    let seen ← readAt W H st.visited nx ny
    if !seen then do
      let visited ← writeAt W H st.visited nx ny true
      let parent ← writeAt W H st.parent nx ny (x, y)
      pure { visited := visited, parent := parent, q := st.q ++ [(nx, ny)] }
    else pure st
  else pure st

/-- The whole `for (int i = 0; i < 4; ++i)` loop at the dequeued cell. -/
def expand (W H : Nat) (grid : Grid) (x y : Int) (st : Search) : Except Fault Search :=
  dirs.foldlM (visit W H grid x y) st

/-- The inner `while (x != startX || y != startY)` loop.  Returns the grid
after the walk together with the cells `(x, y)` the loop variable went
through, in order: the first is the cell the walk starts at, the last is the
cell at which the loop condition failed. -/
def reconstruct (W H : Nat) (startX startY : Int) (parent : Table Cell) :
    Nat → Grid → Int → Int → Except Fault (Grid × List Cell)
  | 0, _, _, _ => .error .noFuel
  | fuel + 1, grid, x, y =>
    if x ≠ startX ∨ y ≠ startY then do
      let grid1 ← writeAt W H grid x y PATH
      let p ← readAt W H parent x y
      let r ← reconstruct W H startX startY parent fuel grid1 p.1 p.2
      pure (r.1, (x, y) :: r.2)
    else pure (grid, [(x, y)])

/-- What a call leaves behind: the global grid, and (for the statements
below) the cells the reconstruction walked through, `none` when the queue ran
empty without the target being dequeued. -/
structure Outcome where
  grid : Grid
  route : Option (List Cell)

/-- The outer `while (!q.empty())` loop. -/
def bfs (W H : Nat) (grid : Grid) (startX startY targetX targetY : Int) :
    Nat → Search → Except Fault Outcome
  | 0, _ => .error .noFuel
  | fuel + 1, st =>
    match st.q with
    | [] => pure { grid := grid, route := none }
    | (x, y) :: rest =>
      if x = targetX ∧ y = targetY then do
        let r ← reconstruct W H startX startY st.parent (W * H) grid x y
        pure { grid := r.1, route := some r.2 }
      else do
        let st1 ← expand W H grid x y { st with q := rest }
        bfs W H grid startX startY targetX targetY fuel st1

/-- The source's `findShortestPath` on a `W × H` grid. -/
def findShortestPath (W H : Nat) (grid : Grid) (startX startY targetX targetY : Int) :
    Except Fault Outcome := do
  let visited0 : Table Bool := fun _ _ => false
  let parent0 : Table Cell := fun _ _ => (-1, -1)
  let visited ← writeAt W H visited0 startX startY true
  bfs W H grid startX startY targetX targetY (W * H + 1)
    { visited := visited, parent := parent0, q := [(startX, startY)] }

/-! ## Routes -/

/-- Cells `a` and `b` differ by exactly one step left, right, up or down. -/
def adjacent (a b : Cell) : Prop :=
  (b.1 = a.1 - 1 ∧ b.2 = a.2) ∨ (b.1 = a.1 + 1 ∧ b.2 = a.2) ∨
    (b.1 = a.1 ∧ b.2 = a.2 - 1) ∨ (b.1 = a.1 ∧ b.2 = a.2 + 1)

instance adjacentDecidable (a b : Cell) : Decidable (adjacent a b) := by
  unfold adjacent; infer_instance

/-- Cell `c` is in bounds and not a Wall. -/
def free (W H : Nat) (grid : Grid) (c : Cell) : Prop :=
  (0 ≤ c.1 ∧ c.1 < (W : Int) ∧ 0 ≤ c.2 ∧ c.2 < (H : Int)) ∧ grid c.1 c.2 ≠ WALL

instance freeDecidable (W H : Nat) (grid : Grid) (c : Cell) : Decidable (free W H grid c) := by
  unfold free; infer_instance

/-- A sequence of up/down/left/right steps leading from `s` to `t`: `steps`
lists the cells stepped into, in order.  Each is one step away from the cell
before it (the first from `s`), each is in bounds and not a Wall, and the
last one is `t` (with no steps at all, `t = s`).  The number of steps is
`steps.length`. -/
def IsRoute (W H : Nat) (grid : Grid) (s t : Cell) (steps : List Cell) : Prop :=
  List.Chain adjacent s steps ∧ (∀ c ∈ steps, free W H grid c) ∧
    (s :: steps).getLast? = some t

/-- Whether each listed cell is one step from the one before, starting at `a`. -/
def chainDecidable : ∀ (a : Cell) (l : List Cell), Decidable (List.Chain adjacent a l)
  | _, [] => isTrue List.Chain.nil
  | a, b :: l =>
    match adjacentDecidable a b, chainDecidable b l with
    | isTrue h1, isTrue h2 => isTrue (List.Chain.cons h1 h2)
    | isFalse h1, _ => isFalse fun h => h1 (List.chain_cons.1 h).1
    | _, isFalse h2 => isFalse fun h => h2 (List.chain_cons.1 h).2

instance isRouteDecidable (W H : Nat) (grid : Grid) (s t : Cell) (steps : List Cell) :
    Decidable (IsRoute W H grid s t steps) :=
  show Decidable (List.Chain adjacent s steps ∧ (∀ c ∈ steps, free W H grid c) ∧
    (s :: steps).getLast? = some t) from
  @instDecidableAnd _ _ (chainDecidable s steps) inferInstance

/-- Cell `c` can be reached from `s` in exactly `n` steps, each into a free cell. -/
inductive Reach (W H : Nat) (grid : Grid) (s : Cell) : Nat → Cell → Prop
  | start : Reach W H grid s 0 s
  | step {n : Nat} {a b : Cell} :
      Reach W H grid s n a → adjacent a b → free W H grid b → Reach W H grid s (n + 1) b

/-- The grid after `grid[x][y] = PATH` for each listed cell, in order. -/
def paint (grid : Grid) (cells : List Cell) : Grid :=
  cells.foldl (fun g c => g.set c.1 c.2 PATH) grid

/-- The number of cells in state `PATH` on a `W × H` grid. -/
def pathCount (W H : Nat) (grid : Grid) : Nat :=
  ((List.range W).map fun x =>
    ((List.range H).filter fun y => decide (grid (x : Int) (y : Int) = PATH)).length).sum

/-- The grid with cell `c` set to Wall. -/
def addWall (grid : Grid) (c : Cell) : Grid := grid.set c.1 c.2 WALL

/-- The number of parent links followed on a walk that went through the cells
`tr` (both ends included). -/
def hops (tr : List Cell) : Nat := tr.length - 1

/-- The state of cell `(x, y)` after a call, when the call finished. -/
def gridAt (r : Except Fault Outcome) (x y : Int) : Option CellState :=
  match r with
  | .ok out => some (out.grid x y)
  | .error _ => none

/-- The cells the reconstruction walked through, when the call finished and
dequeued the target. -/
def routeOf (r : Except Fault Outcome) : Option (List Cell) :=
  match r with
  | .ok out => out.route
  | .error _ => none

/-- The number of `PATH` cells after a call, when the call finished. -/
def pathCountAfter (W H : Nat) (r : Except Fault Outcome) : Option Nat :=
  match r with
  | .ok out => some (pathCount W H out.grid)
  | .error _ => none

/-! ## Auxiliary definitions for the loop invariant -/

/-- The `for` loop body without the fault plumbing. -/
def visitStep (W H : Nat) (grid : Grid) (x y : Int) (st : Search) (d : Int × Int) : Search :=
  if isValid W H grid (x + d.1) (y + d.2) = true ∧ st.visited (x + d.1) (y + d.2) = false then
    { visited := st.visited.set (x + d.1) (y + d.2) true
      parent := st.parent.set (x + d.1) (y + d.2) (x, y)
      q := st.q ++ [(x + d.1, y + d.2)] }
  else st

/-- The in-bounds cells not yet marked visited. -/
def unvisited (W H : Nat) (vis : Table Bool) : Finset Cell :=
  (Finset.Ico (0 : Int) W ×ˢ Finset.Ico (0 : Int) H).filter fun c => vis c.1 c.2 = false

/-- The invariant of the outer loop.  `pend` lists the visited cells whose
neighbours have not all been looked at (the queue, plus the dequeued cell
while its `for` loop runs); `d` is the number of parent links from a visited
cell back to the start. -/
structure Core (W H : Nat) (grid : Grid) (s t : Cell) (vis : Table Bool) (par : Table Cell)
    (pend : List Cell) (d : Cell → Nat) : Prop where
  start_vis : vis s.1 s.2 = true
  start_d : d s = 0
  vis_inb : ∀ c : Cell, vis c.1 c.2 = true → inBounds W H c.1 c.2 = true
  link : ∀ c : Cell, vis c.1 c.2 = true → c ≠ s →
    vis (par c.1 c.2).1 (par c.1 c.2).2 = true ∧ adjacent (par c.1 c.2) c ∧
      isValid W H grid c.1 c.2 = true ∧ d c = d (par c.1 c.2) + 1
  pend_vis : ∀ c ∈ pend, vis c.1 c.2 = true
  sorted : pend.Pairwise fun a b => d a ≤ d b
  span : ∀ a ∈ pend, ∀ b ∈ pend, d b ≤ d a + 1
  done_t : ∀ c : Cell, vis c.1 c.2 = true → c ∉ pend → c ≠ t
  done_nb : ∀ c : Cell, vis c.1 c.2 = true → c ∉ pend → ∀ dd ∈ dirs,
    isValid W H grid (c.1 + dd.1) (c.2 + dd.2) = true →
      vis (c.1 + dd.1) (c.2 + dd.2) = true ∧ d (c.1 + dd.1, c.2 + dd.2) ≤ d c + 1
  done_le : ∀ c : Cell, vis c.1 c.2 = true → c ∉ pend → ∀ b ∈ pend, d c ≤ d b
  bound : ∀ c : Cell, vis c.1 c.2 = true → d c + (unvisited W H vis).card + 1 ≤ W * H

/-- What a finished call guarantees.  Either the queue ran empty, the grid is
untouched and the target cannot be reached; or the walk `tr` from the target
back to the start was painted (its last cell, the start, excepted), it follows
single steps through valid cells, none of the painted cells is the start, no
route is shorter, and the walk went through at most `W * H` cells. -/
def Post (W H : Nat) (grid : Grid) (s t : Cell) (out : Outcome) : Prop :=
  (out.route = none ∧ out.grid = grid ∧ ∀ n, ¬ Reach W H grid s n t) ∨
  (∃ tr : List Cell, out.route = some tr ∧ out.grid = paint grid tr.dropLast ∧
    tr.head? = some t ∧ tr.getLast? = some s ∧
    List.Chain' (fun a b => adjacent b a) tr ∧
    (∀ c ∈ tr.dropLast, isValid W H grid c.1 c.2 = true ∧ c ≠ s) ∧
    Reach W H grid s (tr.length - 1) t ∧
    (∀ n, Reach W H grid s n t → tr.length ≤ n + 1) ∧
    tr.length ≤ W * H)

/-! ## The search with bookkeeping -/

/-- Bookkeeping for one run of `findShortestPath`: the cells pushed onto `q`,
in order, and the number of `q.pop()` calls executed. -/
structure Tally where
  pushed : List Cell
  pops : Nat

/-- The `for` loop body `visit`, also recording the `q.push`. -/
def visitCounted (W H : Nat) (grid : Grid) (x y : Int) (p : Search × Tally) (d : Int × Int) :
    Except Fault (Search × Tally) :=
  let nx := x + d.1
  let ny := y + d.2
  if isValid W H grid nx ny then do
    let seen ← readAt W H p.1.visited nx ny
    if !seen then do
      let visited ← writeAt W H p.1.visited nx ny true
      let parent ← writeAt W H p.1.parent nx ny (x, y)
      pure ({ visited := visited, parent := parent, q := p.1.q ++ [(nx, ny)] },
        { p.2 with pushed := p.2.pushed ++ [(nx, ny)] })
    else pure p
  else pure p

/-- The `for` loop `expand`, also recording the pushes. -/
def expandCounted (W H : Nat) (grid : Grid) (x y : Int) (p : Search × Tally) :
    Except Fault (Search × Tally) :=
  dirs.foldlM (visitCounted W H grid x y) p

/-- The outer loop `bfs`, also recording every `q.push` and counting every
`q.pop()`. -/
def bfsCounted (W H : Nat) (grid : Grid) (startX startY targetX targetY : Int) :
    Nat → Search → Tally → Except Fault (Outcome × Tally)
  | 0, _, _ => .error .noFuel
  | fuel + 1, st, tl =>
    match st.q with
    | [] => pure ({ grid := grid, route := none }, tl)
    | (x, y) :: rest =>
      if x = targetX ∧ y = targetY then do
        let r ← reconstruct W H startX startY st.parent (W * H) grid x y
        pure ({ grid := r.1, route := some r.2 }, { tl with pops := tl.pops + 1 })
      else do
        let p ← expandCounted W H grid x y ({ st with q := rest }, { tl with pops := tl.pops + 1 })
        bfsCounted W H grid startX startY targetX targetY fuel p.1 p.2

/-- The call `findShortestPath`, also returning the bookkeeping of the run. -/
def findShortestPathCounted (W H : Nat) (grid : Grid) (startX startY targetX targetY : Int) :
    Except Fault (Outcome × Tally) := do
  let visited0 : Table Bool := fun _ _ => false
  let parent0 : Table Cell := fun _ _ => (-1, -1)
  let visited ← writeAt W H visited0 startX startY true
  bfsCounted W H grid startX startY targetX targetY (W * H + 1)
    { visited := visited, parent := parent0, q := [(startX, startY)] }
    { pushed := [(startX, startY)], pops := 0 }

/-- The bookkeeping after one more push, when `visit` pushes in direction `d`. -/
def tallyStep (W H : Nat) (grid : Grid) (x y : Int) (p : Search × Tally) (d : Int × Int) :
    Search × Tally :=
  (visitStep W H grid x y p.1 d,
    if isValid W H grid (x + d.1) (y + d.2) = true ∧ p.1.visited (x + d.1) (y + d.2) = false then
      { p.2 with pushed := p.2.pushed ++ [(x + d.1, y + d.2)] }
    else p.2)

/-- The invariant of the bookkeeping: no cell was pushed twice, every pushed
cell is marked visited, and pops so far plus the cells still to pop or to
visit stay within `W * H`. -/
def Counted (W H : Nat) (st : Search) (tl : Tally) : Prop :=
  tl.pushed.Nodup ∧ (∀ c ∈ tl.pushed, st.visited c.1 c.2 = true) ∧
    tl.pops + (unvisited W H st.visited).card + st.q.length ≤ W * H

/-! ## The event loop -/

/-- The global `grid` together with the locals of `main` that `handleEvents`
updates by reference. -/
structure App where
  grid : Grid
  startX : Int
  startY : Int
  targetX : Int
  targetY : Int

/-- The mouse button of a `SDL_MOUSEBUTTONDOWN` event, as far as
`handleEvents` tells buttons apart. -/
inductive Button
  | LEFT
  | RIGHT
  | OTHER
  deriving DecidableEq, Repr

/-- An event handed out by `SDL_PollEvent`.  A mouse event carries the
position that `SDL_GetMouseState` reports; a key event carries whether the
key is `SDLK_SPACE`.  `SDL_QUIT`, which ends the process, is left out. -/
inductive Event
  | MOUSEBUTTONDOWN (button : Button) (mouseX mouseY : Int)
  | KEYDOWN (space : Bool)
  | OTHER
  deriving DecidableEq, Repr

/-- The C++ quotient `mouse / CELL_SIZE` (rounding toward zero). -/
def gridCoord (mouse : Int) : Int := Int.tdiv mouse (CELL_SIZE : Int)

/-- The body of the `while (SDL_PollEvent(&e) != 0)` loop of `handleEvents`,
for one event.  The grid accesses sit behind the explicit bounds tests. -/
def handleEvent (W H : Nat) (a : App) : Event → Except Fault App
  | .MOUSEBUTTONDOWN button mouseX mouseY =>
    let gridX := gridCoord mouseX
    let gridY := gridCoord mouseY
    match button with
    | .LEFT =>
      if gridX ≥ 0 ∧ gridX < (W : Int) ∧ gridY ≥ 0 ∧ gridY < (H : Int) then
        if a.grid gridX gridY = EMPTY then
          pure { a with grid := a.grid.set gridX gridY WALL }
        else if a.grid gridX gridY = WALL then
          pure { a with grid := a.grid.set gridX gridY EMPTY }
        else pure a
      else pure a
    | .RIGHT =>
      if gridX ≥ 0 ∧ gridX < (W : Int) ∧ gridY ≥ 0 ∧ gridY < (H : Int) then
        if a.grid gridX gridY ≠ WALL then
          if a.startX = -1 ∧ a.startY = -1 then
            pure { a with grid := a.grid.set gridX gridY START, startX := gridX, startY := gridY }
          else if a.targetX = -1 ∧ a.targetY = -1 then
            pure { a with grid := a.grid.set gridX gridY TARGET, targetX := gridX,
                          targetY := gridY }
          else pure a
        else pure a
      else pure a
    | .OTHER => pure a
  | .KEYDOWN space =>
    if space = true ∧ a.startX ≠ -1 ∧ a.startY ≠ -1 ∧ a.targetX ≠ -1 ∧ a.targetY ≠ -1 then do
      let out ← findShortestPath W H a.grid a.startX a.startY a.targetX a.targetY
      pure { a with grid := out.grid }
    else pure a
  | .OTHER => pure a

/-- The source's `handleEvents`: the loop over the pending events. -/
def handleEvents (W H : Nat) (a : App) (events : List Event) : Except Fault App :=
  events.foldlM (handleEvent W H) a

/-- The state `main` starts from: every cell `EMPTY`, all four coordinates `-1`. -/
def initial : App :=
  { grid := fun _ _ => EMPTY, startX := -1, startY := -1, targetX := -1, targetY := -1 }

/-- The states the event loop can be in: the initial state and every state
that handling one more event leads to. -/
inductive Reachable (W H : Nat) : App → Prop
  | init : Reachable W H initial
  | step {a a1 : App} (e : Event) :
      Reachable W H a → handleEvent W H a e = .ok a1 → Reachable W H a1

/-- A Space press in state `a` calls `findShortestPath`. -/
def invokesSearch (a : App) : Prop :=
  a.startX ≠ -1 ∧ a.startY ≠ -1 ∧ a.targetX ≠ -1 ∧ a.targetY ≠ -1

instance invokesSearchDecidable (a : App) : Decidable (invokesSearch a) := by
  unfold invokesSearch; infer_instance

/-- The Start coordinates have been set (the test `startX == -1 && startY == -1` fails). -/
def startSet (a : App) : Prop := ¬ (a.startX = -1 ∧ a.startY = -1)

/-- The Target coordinates have been set. -/
def targetSet (a : App) : Prop := ¬ (a.targetX = -1 ∧ a.targetY = -1)

instance startSetDecidable (a : App) : Decidable (startSet a) := by
  unfold startSet; infer_instance

instance targetSetDecidable (a : App) : Decidable (targetSet a) := by
  unfold targetSet; infer_instance

/-- The invariant of the event loop: coordinates are unset or in bounds, and
a cell in state `START` (`TARGET`) is the stored, in-bounds start (target). -/
structure Sound (W H : Nat) (a : App) : Prop where
  start_ok : (a.startX = -1 ∧ a.startY = -1) ∨ inBounds W H a.startX a.startY = true
  target_ok : (a.targetX = -1 ∧ a.targetY = -1) ∨ inBounds W H a.targetX a.targetY = true
  start_cell : ∀ c : Cell, a.grid c.1 c.2 = START →
    c = (a.startX, a.startY) ∧ inBounds W H c.1 c.2 = true
  target_cell : ∀ c : Cell, a.grid c.1 c.2 = TARGET →
    c = (a.targetX, a.targetY) ∧ inBounds W H c.1 c.2 = true

/-- The mark on the start cell is kept: once the start is set, its cell holds
`START` and differs from the stored target, unless the target was placed on
the same cell, which then holds `TARGET`; and the target is never set before
the start. -/
def StartKept (a : App) : Prop :=
  (startSet a →
    (a.grid a.startX a.startY = START ∧ ¬ (a.startX = a.targetX ∧ a.startY = a.targetY)) ∨
      (a.startX = a.targetX ∧ a.startY = a.targetY ∧ a.grid a.startX a.startY = TARGET)) ∧
    (¬ startSet a → ¬ targetSet a)

/-- The state of cell `(x, y)` after handling events, when no fault occurred. -/
def cellAfter (r : Except Fault App) (x y : Int) : Option CellState :=
  match r with
  | .ok a => some (a.grid x y)
  | .error _ => none

/-- The stored coordinates `(startX, startY, targetX, targetY)` after handling
events, when no fault occurred. -/
def coordsAfter (r : Except Fault App) : Option (Int × Int × Int × Int) :=
  match r with
  | .ok a => some (a.startX, a.startY, a.targetX, a.targetY)
  | .error _ => none

/-- Whether a Space press would call `findShortestPath` after handling events. -/
def invokesAfter (r : Except Fault App) : Bool :=
  match r with
  | .ok a => decide (invokesSearch a)
  | .error _ => false

/-- The number of cells of a `W × H` grid in state `v`. -/
def stateCount (W H : Nat) (grid : Grid) (v : CellState) : Nat :=
  ((List.range W).map fun x =>
    ((List.range H).filter fun y => decide (grid (x : Int) (y : Int) = v)).length).sum

/-- The number of cells in state `v` after handling events, when no fault occurred. -/
def stateCountAfter (W H : Nat) (r : Except Fault App) (v : CellState) : Option Nat :=
  match r with
  | .ok a => some (stateCount W H a.grid v)
  | .error _ => none

/-- The state after a left click that lands in cell `(x, y)`. -/
def leftClicked (W H : Nat) (a : App) (x y : Int) : App :=
  if inBounds W H x y = true then
    if a.grid x y = EMPTY then { a with grid := a.grid.set x y WALL }
    else if a.grid x y = WALL then { a with grid := a.grid.set x y EMPTY }
    else a
  else a

/-- The state after a right click that lands in cell `(x, y)`. -/
def rightClicked (W H : Nat) (a : App) (x y : Int) : App :=
  if inBounds W H x y = true ∧ a.grid x y ≠ WALL then
    if a.startX = -1 ∧ a.startY = -1 then
      { a with grid := a.grid.set x y START, startX := x, startY := y }
    else if a.targetX = -1 ∧ a.targetY = -1 then
      { a with grid := a.grid.set x y TARGET, targetX := x, targetY := y }
    else a
  else a

/-! ## Scenarios -/

/-- The grid of the 5×5 scenario: Start `(0,0)`, Target `(4,0)`, Walls at
`(2,0)` and `(2,1)`, every other cell Empty. -/
def grid55 : Grid := fun x y =>
  if x = 0 ∧ y = 0 then START
  else if x = 4 ∧ y = 0 then TARGET
  else if x = 2 ∧ (y = 0 ∨ y = 1) then WALL
  else EMPTY

/-- A 3×1 corridor: Start `(0,0)`, an Empty cell, Target `(2,0)`. -/
def grid31 : Grid := fun x y =>
  if x = 0 ∧ y = 0 then START
  else if x = 2 ∧ y = 0 then TARGET
  else EMPTY

/-- A 3×1 corridor whose middle cell is a Wall: Start `(0,0)`, Wall `(1,0)`,
Target `(2,0)`. -/
def gridBlocked : Grid := fun x y =>
  if x = 0 ∧ y = 0 then START
  else if x = 1 ∧ y = 0 then WALL
  else if x = 2 ∧ y = 0 then TARGET
  else EMPTY

/-- A 2×2 grid with a `PATH` mark left over at `(0,1)`: Start `(0,0)`,
Target `(1,0)`. -/
def gridStale : Grid := fun x y =>
  if x = 0 ∧ y = 0 then START
  else if x = 1 ∧ y = 0 then TARGET
  else if x = 0 ∧ y = 1 then PATH
  else EMPTY

/-- The Manhattan distance `|a.x - b.x| + |a.y - b.y|`. -/
def manhattan (a b : Cell) : Nat := (a.1 - b.1).natAbs + (a.2 - b.2).natAbs

/-- The walk the search takes back on `grid55`. -/
def walk55 : List Cell :=
  [(4, 0), (4, 1), (4, 2), (3, 2), (2, 2), (1, 2), (1, 1), (1, 0), (0, 0)]

/-- A 2×1 grid whose start cell `(0,0)` is a Wall; `(1,0)` is Empty. -/
def gridWallStart : Grid := fun x y =>
  if x = 0 ∧ y = 0 then WALL else EMPTY

/-- A right click at `(0,0)`, a right click at `(2,0)`, and a Space press: the
mouse positions `(5,5)` and `(45,5)` lie in those cells. -/
def clicksThenSearch : List Event :=
  [.MOUSEBUTTONDOWN .RIGHT 5 5, .MOUSEBUTTONDOWN .RIGHT 45 5, .KEYDOWN true]

/-- The state after one right click in cell `(0,0)` of the initial grid. -/
def startPlaced : App :=
  rightClicked GRID_WIDTH GRID_HEIGHT initial (gridCoord 5) (gridCoord 5)

/-- The state after a further right click in cell `(2,0)`. -/
def targetPlaced : App :=
  rightClicked GRID_WIDTH GRID_HEIGHT startPlaced (gridCoord 45) (gridCoord 5)

/-- Two right clicks on the cell `(0,0)`. -/
def clicksSameCell : List Event :=
  [.MOUSEBUTTONDOWN .RIGHT 5 5, .MOUSEBUTTONDOWN .RIGHT 6 7]

/-! ## Tables and validity -/

theorem Table.set_same {α : Type} (t : Table α) (x y : Int) (v : α) :
    t.set x y v x y = v := by
  simp [Table.set]

theorem Table.set_other {α : Type} (t : Table α) (x y a b : Int) (v : α)
    (h : ¬ (a = x ∧ b = y)) : t.set x y v a b = t a b := by
  simp [Table.set, h]

theorem inBounds_iff {W H : Nat} {x y : Int} :
    inBounds W H x y = true ↔ 0 ≤ x ∧ x < (W : Int) ∧ 0 ≤ y ∧ y < (H : Int) := by
  simp only [inBounds, Bool.and_eq_true, decide_eq_true_eq]
  tauto

theorem isValid_iff {W H : Nat} {grid : Grid} {x y : Int} :
    isValid W H grid x y = true ↔ inBounds W H x y = true ∧ grid x y ≠ WALL := by
  simp only [isValid, inBounds, Bool.and_eq_true, decide_eq_true_eq, ge_iff_le]

theorem isValid_inBounds {W H : Nat} {grid : Grid} {x y : Int}
    (h : isValid W H grid x y = true) : inBounds W H x y = true :=
  (isValid_iff.1 h).1

theorem isValid_free {W H : Nat} {grid : Grid} {c : Cell} :
    isValid W H grid c.1 c.2 = true ↔ free W H grid c := by
  rw [isValid_iff, inBounds_iff, free]

theorem adjacent_iff_dirs {a b : Cell} :
    adjacent a b ↔ ∃ dd ∈ dirs, b = (a.1 + dd.1, a.2 + dd.2) := by
  obtain ⟨a1, a2⟩ := a
  obtain ⟨b1, b2⟩ := b
  simp only [adjacent, dirs, List.mem_cons, List.mem_singleton, List.not_mem_nil, or_false,
    exists_eq_or_imp, exists_eq_left, Prod.mk.injEq]
  constructor
  · rintro (h | h | h | h) <;> omega
  · rintro (h | h | h | h) <;> omega

theorem adjacent_symm {a b : Cell} (h : adjacent a b) : adjacent b a := by
  unfold adjacent at *
  omega

/-! ## The loop body -/

theorem visit_eq (W H : Nat) (grid : Grid) (x y : Int) (st : Search) (d : Int × Int) :
    visit W H grid x y st d = .ok (visitStep W H grid x y st d) := by
  unfold visit visitStep
  by_cases hv : isValid W H grid (x + d.1) (y + d.2) = true
  · have hb := isValid_inBounds hv
    cases hs : st.visited (x + d.1) (y + d.2) <;>
      simp [hv, hb, hs, readAt, writeAt, bind, Except.bind, pure, Except.pure]
  · simp [hv, pure, Except.pure]

theorem expand_eq (W H : Nat) (grid : Grid) (x y : Int) (st : Search) :
    expand W H grid x y st = .ok (dirs.foldl (visitStep W H grid x y) st) := by
  simp [expand, dirs, List.foldlM, visit_eq, bind, Except.bind, pure, Except.pure]

theorem unvisited_card_le (W H : Nat) (vis : Table Bool) :
    (unvisited W H vis).card ≤ W * H := by
  unfold unvisited
  refine (Finset.card_filter_le _ _).trans ?_
  simp

theorem unvisited_set (W H : Nat) (vis : Table Bool) (x y : Int)
    (hb : inBounds W H x y = true) (hv : vis x y = false) :
    (unvisited W H (vis.set x y true)).card + 1 = (unvisited W H vis).card := by
  have hmem : (x, y) ∈ unvisited W H vis := by
    rw [inBounds_iff] at hb
    simp [unvisited, hv, hb]
  have heq : unvisited W H (vis.set x y true) = (unvisited W H vis).erase (x, y) := by
    ext ⟨a, b⟩
    simp only [unvisited, Finset.mem_filter, Finset.mem_erase, Table.set, Prod.mk.injEq]
    by_cases hab : a = x ∧ b = y
    · simp [hab]
    · simp [hab]
  rw [heq, Finset.card_erase_of_mem hmem]
  have := Finset.card_pos.2 ⟨_, hmem⟩
  omega

theorem unvisited_init (W H : Nat) :
    (unvisited W H (fun _ _ => false)).card = W * H := by
  simp [unvisited]

theorem Table.set_cell {α : Type} (t : Table α) (n c : Cell) (v : α) :
    t.set n.1 n.2 v c.1 c.2 = if c = n then v else t c.1 c.2 := by
  obtain ⟨n1, n2⟩ := n
  obtain ⟨c1, c2⟩ := c
  simp [Table.set, Prod.mk.injEq]

/-! ## Preservation of the invariant -/

theorem Core.pend_head_le {W H : Nat} {grid : Grid} {s t h : Cell} {vis : Table Bool}
    {par : Table Cell} {q : List Cell} {d : Cell → Nat}
    (hc : Core W H grid s t vis par (h :: q) d) : ∀ a ∈ h :: q, d h ≤ d a := by
  intro a ha
  rcases List.mem_cons.1 ha with rfl | ha
  · exact le_rfl
  · exact (List.pairwise_cons.1 hc.sorted).1 a ha

theorem Core.vis_le {W H : Nat} {grid : Grid} {s t h : Cell} {vis : Table Bool}
    {par : Table Cell} {q : List Cell} {d : Cell → Nat}
    (hc : Core W H grid s t vis par (h :: q) d) (c : Cell) (hv : vis c.1 c.2 = true) :
    d c ≤ d h + 1 := by
  by_cases hm : c ∈ h :: q
  · exact hc.span h (List.mem_cons_self _ _) c hm
  · have := hc.done_le c hv hm h (List.mem_cons_self _ _)
    omega

theorem core_push {W H : Nat} {grid : Grid} {s t h : Cell} {vis : Table Bool}
    {par : Table Cell} {q : List Cell} {d : Cell → Nat} (n : Cell)
    (hadj : adjacent h n) (hval : isValid W H grid n.1 n.2 = true)
    (hunv : vis n.1 n.2 = false) (hc : Core W H grid s t vis par (h :: q) d) :
    ∃ d1 : Cell → Nat,
      Core W H grid s t (vis.set n.1 n.2 true) (par.set n.1 n.2 h) (h :: (q ++ [n])) d1 ∧
      (∀ c : Cell, vis c.1 c.2 = true → vis.set n.1 n.2 true c.1 c.2 = true ∧ d1 c = d c) ∧
      (vis.set n.1 n.2 true n.1 n.2 = true ∧ d1 n ≤ d1 h + 1) ∧
      (unvisited W H (vis.set n.1 n.2 true)).card + 1 = (unvisited W H vis).card := by
  have hvh : vis h.1 h.2 = true := hc.pend_vis h (List.mem_cons_self _ _)
  have hne : ∀ c : Cell, vis c.1 c.2 = true → c ≠ n := by
    intro c hv hcn
    rw [hcn, hunv] at hv
    exact Bool.noConfusion hv
  have hv1 : ∀ c : Cell, vis.set n.1 n.2 true c.1 c.2 = true ↔ c = n ∨ vis c.1 c.2 = true := by
    intro c
    rw [Table.set_cell]
    by_cases hcn : c = n <;> simp [hcn]
  have hcard := unvisited_set W H vis n.1 n.2 (isValid_inBounds hval) hunv
  have hd : ∀ c : Cell, vis c.1 c.2 = true → (if c = n then d h + 1 else d c) = d c := by
    intro c hv
    simp [hne c hv]
  have hdn : (if n = n then d h + 1 else d n) = d h + 1 := by simp
  have hmem : ∀ c, c ∈ h :: (q ++ [n]) ↔ c ∈ h :: q ∨ c = n := by
    intro c
    simp only [List.mem_cons, List.mem_append, List.mem_singleton, List.not_mem_nil,
      or_false, or_assoc]
  refine ⟨fun c => if c = n then d h + 1 else d c, ?_, ?_, ?_, hcard⟩
  · constructor
    · exact (hv1 s).2 (Or.inr hc.start_vis)
    · show (if s = n then d h + 1 else d s) = 0
      rw [hd s hc.start_vis]; exact hc.start_d
    · intro c hv
      rcases (hv1 c).1 hv with hcn | hv0
      · rw [hcn]; exact isValid_inBounds hval
      · exact hc.vis_inb c hv0
    · intro c hv hcs
      show _ ∧ _ ∧ _ ∧ (if c = n then d h + 1 else d c) =
        (if par.set n.1 n.2 h c.1 c.2 = n then d h + 1 else d (par.set n.1 n.2 h c.1 c.2)) + 1
      rw [Table.set_cell par n c h]
      rcases (hv1 c).1 hv with hcn | hv0
      · rw [if_pos hcn, hcn]
        refine ⟨(hv1 h).2 (Or.inr hvh), hadj, hval, ?_⟩
        rw [hdn, hd h hvh]
      · obtain ⟨l1, l2, l3, l4⟩ := hc.link c hv0 hcs
        rw [if_neg (hne c hv0)]
        refine ⟨(hv1 _).2 (Or.inr l1), l2, l3, ?_⟩
        rw [hd c hv0, hd _ l1, l4]
    · intro c hm
      rcases (hmem c).1 hm with hm1 | hm1
      · exact (hv1 c).2 (Or.inr (hc.pend_vis c hm1))
      · exact (hv1 _).2 (Or.inl hm1)
    · have : h :: (q ++ [n]) = (h :: q) ++ [n] := rfl
      rw [this, List.pairwise_append]
      refine ⟨?_, List.pairwise_singleton _ _, ?_⟩
      · refine hc.sorted.imp_of_mem ?_
        intro a b ha hb hab
        show (if a = n then d h + 1 else d a) ≤ (if b = n then d h + 1 else d b)
        rw [hd a (hc.pend_vis a ha), hd b (hc.pend_vis b hb)]
        exact hab
      · intro a ha b hb
        show (if a = n then d h + 1 else d a) ≤ (if b = n then d h + 1 else d b)
        rw [List.mem_singleton.1 hb, hdn, hd a (hc.pend_vis a ha)]
        exact hc.span h (List.mem_cons_self _ _) a ha
    · intro a ha b hb
      show (if b = n then d h + 1 else d b) ≤ (if a = n then d h + 1 else d a) + 1
      rcases (hmem a).1 ha with ha1 | ha1 <;> rcases (hmem b).1 hb with hb1 | hb1
      · rw [hd a (hc.pend_vis a ha1), hd b (hc.pend_vis b hb1)]
        exact hc.span a ha1 b hb1
      · rw [hb1, hdn, hd a (hc.pend_vis a ha1)]
        have := hc.pend_head_le a ha1
        omega
      · rw [ha1, hdn, hd b (hc.pend_vis b hb1)]
        have := hc.span h (List.mem_cons_self _ _) b hb1
        omega
      · rw [ha1, hb1]
        omega
    · intro c hv hm
      have hm1 : c ∉ h :: q := fun h1 => hm ((hmem c).2 (Or.inl h1))
      have hcn : c ≠ n := fun h1 => hm ((hmem c).2 (Or.inr h1))
      have hv0 : vis c.1 c.2 = true := ((hv1 c).1 hv).resolve_left hcn
      exact hc.done_t c hv0 hm1
    · intro c hv hm e he hval1
      have hm1 : c ∉ h :: q := fun h1 => hm ((hmem c).2 (Or.inl h1))
      have hcn : c ≠ n := fun h1 => hm ((hmem c).2 (Or.inr h1))
      have hv0 : vis c.1 c.2 = true := ((hv1 c).1 hv).resolve_left hcn
      obtain ⟨n1, n2⟩ := hc.done_nb c hv0 hm1 e he hval1
      refine ⟨(hv1 (c.1 + e.1, c.2 + e.2)).2 (Or.inr n1), ?_⟩
      show (if (c.1 + e.1, c.2 + e.2) = n then d h + 1 else d (c.1 + e.1, c.2 + e.2)) ≤
        (if c = n then d h + 1 else d c) + 1
      rw [hd (c.1 + e.1, c.2 + e.2) n1, hd c hv0]
      exact n2
    · intro c hv hm b hb
      have hm1 : c ∉ h :: q := fun h1 => hm ((hmem c).2 (Or.inl h1))
      have hcn : c ≠ n := fun h1 => hm ((hmem c).2 (Or.inr h1))
      have hv0 : vis c.1 c.2 = true := ((hv1 c).1 hv).resolve_left hcn
      show (if c = n then d h + 1 else d c) ≤ (if b = n then d h + 1 else d b)
      rw [hd c hv0]
      rcases (hmem b).1 hb with hb1 | hb1
      · rw [hd b (hc.pend_vis b hb1)]
        exact hc.done_le c hv0 hm1 b hb1
      · rw [hb1, hdn]
        have := hc.done_le c hv0 hm1 h (List.mem_cons_self _ _)
        omega
    · intro c hv
      show (if c = n then d h + 1 else d c) + _ + 1 ≤ _
      rcases (hv1 c).1 hv with hcn | hv0
      · rw [hcn, hdn]
        have := hc.bound h hvh
        omega
      · rw [hd c hv0]
        have := hc.bound c hv0
        omega
  · intro c hv
    exact ⟨(hv1 c).2 (Or.inr hv), hd c hv⟩
  · refine ⟨(hv1 n).2 (Or.inl rfl), ?_⟩
    show (if n = n then d h + 1 else d n) ≤ (if h = n then d h + 1 else d h) + 1
    rw [hdn, hd h hvh]

theorem visitStep_core {W H : Nat} {grid : Grid} {s t h : Cell} {st : Search} {d : Cell → Nat}
    (dd : Int × Int) (hdd : dd ∈ dirs)
    (hc : Core W H grid s t st.visited st.parent (h :: st.q) d) :
    ∃ d1 : Cell → Nat,
      Core W H grid s t (visitStep W H grid h.1 h.2 st dd).visited
        (visitStep W H grid h.1 h.2 st dd).parent
        (h :: (visitStep W H grid h.1 h.2 st dd).q) d1 ∧
      (∀ c : Cell, st.visited c.1 c.2 = true →
        (visitStep W H grid h.1 h.2 st dd).visited c.1 c.2 = true ∧ d1 c = d c) ∧
      (isValid W H grid (h.1 + dd.1) (h.2 + dd.2) = true →
        (visitStep W H grid h.1 h.2 st dd).visited (h.1 + dd.1) (h.2 + dd.2) = true ∧
          d1 (h.1 + dd.1, h.2 + dd.2) ≤ d1 h + 1) ∧
      (unvisited W H (visitStep W H grid h.1 h.2 st dd).visited).card +
          (visitStep W H grid h.1 h.2 st dd).q.length =
        (unvisited W H st.visited).card + st.q.length := by
  by_cases hnew : isValid W H grid (h.1 + dd.1) (h.2 + dd.2) = true ∧
      st.visited (h.1 + dd.1) (h.2 + dd.2) = false
  · obtain ⟨hval, hunv⟩ := hnew
    have hstep : visitStep W H grid h.1 h.2 st dd =
        { visited := st.visited.set (h.1 + dd.1) (h.2 + dd.2) true
          parent := st.parent.set (h.1 + dd.1) (h.2 + dd.2) h
          q := st.q ++ [(h.1 + dd.1, h.2 + dd.2)] } := by
      simp [visitStep, hval, hunv]
    rw [hstep]
    obtain ⟨d1, h1, h2, h3, h4⟩ := core_push (h.1 + dd.1, h.2 + dd.2)
      (adjacent_iff_dirs.2 ⟨dd, hdd, rfl⟩) hval hunv hc
    refine ⟨d1, h1, h2, fun _ => h3, ?_⟩
    show (unvisited W H (st.visited.set (h.1 + dd.1) (h.2 + dd.2) true)).card +
      (st.q ++ [(h.1 + dd.1, h.2 + dd.2)]).length = _
    rw [List.length_append, List.length_singleton]
    have h4' : (unvisited W H (st.visited.set (h.1 + dd.1) (h.2 + dd.2) true)).card + 1 =
      (unvisited W H st.visited).card := h4
    omega
  · have hstep : visitStep W H grid h.1 h.2 st dd = st := by
      simp only [visitStep, hnew, if_false]
    rw [hstep]
    refine ⟨d, hc, fun c hv => ⟨hv, rfl⟩, ?_, rfl⟩
    intro hval
    have hv : st.visited (h.1 + dd.1) (h.2 + dd.2) = true := by
      cases hx : st.visited (h.1 + dd.1) (h.2 + dd.2)
      · exact absurd ⟨hval, hx⟩ hnew
      · rfl
    exact ⟨hv, hc.vis_le (h.1 + dd.1, h.2 + dd.2) hv⟩

theorem fold_core {W H : Nat} {grid : Grid} {s t h : Cell} (ds : List (Int × Int))
    (hds : ∀ dd ∈ ds, dd ∈ dirs) :
    ∀ (st : Search) (d : Cell → Nat),
      Core W H grid s t st.visited st.parent (h :: st.q) d →
      ∃ d1 : Cell → Nat,
        Core W H grid s t (ds.foldl (visitStep W H grid h.1 h.2) st).visited
          (ds.foldl (visitStep W H grid h.1 h.2) st).parent
          (h :: (ds.foldl (visitStep W H grid h.1 h.2) st).q) d1 ∧
        (∀ c : Cell, st.visited c.1 c.2 = true →
          (ds.foldl (visitStep W H grid h.1 h.2) st).visited c.1 c.2 = true ∧ d1 c = d c) ∧
        (∀ dd ∈ ds, isValid W H grid (h.1 + dd.1) (h.2 + dd.2) = true →
          (ds.foldl (visitStep W H grid h.1 h.2) st).visited (h.1 + dd.1) (h.2 + dd.2) = true ∧
            d1 (h.1 + dd.1, h.2 + dd.2) ≤ d1 h + 1) ∧
        (unvisited W H (ds.foldl (visitStep W H grid h.1 h.2) st).visited).card +
            (ds.foldl (visitStep W H grid h.1 h.2) st).q.length =
          (unvisited W H st.visited).card + st.q.length := by
  induction ds with
  | nil =>
    intro st d hc
    exact ⟨d, hc, fun c hv => ⟨hv, rfl⟩, fun dd hdd => absurd hdd (List.not_mem_nil _), rfl⟩
  | cons e ds ih =>
    intro st d hc
    obtain ⟨d1, c1, m1, n1, u1⟩ := visitStep_core e (hds e (List.mem_cons_self _ _)) hc
    obtain ⟨d2, c2, m2, n2, u2⟩ :=
      ih (fun dd hdd => hds dd (List.mem_cons_of_mem _ hdd)) _ d1 c1
    rw [List.foldl_cons]
    refine ⟨d2, c2, ?_, ?_, u2.trans u1⟩
    · intro c hv
      obtain ⟨a1, a2⟩ := m1 c hv
      obtain ⟨b1, b2⟩ := m2 c a1
      exact ⟨b1, b2.trans a2⟩
    · intro dd hdd hval
      rcases List.mem_cons.1 hdd with hde | hdd
      · obtain ⟨a1, a2⟩ := n1 (hde ▸ hval)
        rw [hde]
        obtain ⟨b1, b2⟩ := m2 (h.1 + e.1, h.2 + e.2) a1
        have hb := m2 h (c1.pend_vis h (List.mem_cons_self _ _))
        refine ⟨b1, ?_⟩
        rw [b2, hb.2]
        exact a2
      · exact n2 dd hdd hval

theorem core_finish {W H : Nat} {grid : Grid} {s t h : Cell} {vis : Table Bool}
    {par : Table Cell} {q : List Cell} {d : Cell → Nat}
    (hc : Core W H grid s t vis par (h :: q) d) (ht : h ≠ t)
    (hnb : ∀ dd ∈ dirs, isValid W H grid (h.1 + dd.1) (h.2 + dd.2) = true →
      vis (h.1 + dd.1) (h.2 + dd.2) = true ∧ d (h.1 + dd.1, h.2 + dd.2) ≤ d h + 1) :
    Core W H grid s t vis par q d := by
  have hsplit : ∀ c : Cell, c ∉ q → c = h ∨ c ∉ h :: q := by
    intro c hm
    by_cases hch : c = h
    · exact Or.inl hch
    · exact Or.inr (fun hm1 => (List.mem_cons.1 hm1).elim hch hm)
  constructor
  · exact hc.start_vis
  · exact hc.start_d
  · exact hc.vis_inb
  · exact hc.link
  · exact fun c hm => hc.pend_vis c (List.mem_cons_of_mem _ hm)
  · exact (List.pairwise_cons.1 hc.sorted).2
  · exact fun a ha b hb => hc.span a (List.mem_cons_of_mem _ ha) b (List.mem_cons_of_mem _ hb)
  · intro c hv hm
    rcases hsplit c hm with hch | hm1
    · rw [hch]; exact ht
    · exact hc.done_t c hv hm1
  · intro c hv hm
    rcases hsplit c hm with hch | hm1
    · rw [hch]; exact hnb
    · exact hc.done_nb c hv hm1
  · intro c hv hm b hb
    rcases hsplit c hm with hch | hm1
    · rw [hch]; exact hc.pend_head_le b (List.mem_cons_of_mem _ hb)
    · exact hc.done_le c hv hm1 b (List.mem_cons_of_mem _ hb)
  · exact hc.bound

theorem expand_core {W H : Nat} {grid : Grid} {s t h : Cell} {vis : Table Bool}
    {par : Table Cell} {rest : List Cell} {d : Cell → Nat}
    (hc : Core W H grid s t vis par (h :: rest) d) (ht : h ≠ t) :
    ∃ d1 : Cell → Nat,
      Core W H grid s t
        (dirs.foldl (visitStep W H grid h.1 h.2) ⟨vis, par, rest⟩).visited
        (dirs.foldl (visitStep W H grid h.1 h.2) ⟨vis, par, rest⟩).parent
        (dirs.foldl (visitStep W H grid h.1 h.2) ⟨vis, par, rest⟩).q d1 ∧
      (unvisited W H (dirs.foldl (visitStep W H grid h.1 h.2) ⟨vis, par, rest⟩).visited).card +
          (dirs.foldl (visitStep W H grid h.1 h.2) ⟨vis, par, rest⟩).q.length =
        (unvisited W H vis).card + rest.length := by
  obtain ⟨d1, c1, _, n1, u1⟩ :=
    fold_core (h := h) dirs (fun _ hdd => hdd) ⟨vis, par, rest⟩ d hc
  exact ⟨d1, core_finish c1 ht n1, u1⟩

/-! ## Consequences of the invariant -/

theorem Core.reach_of_visited {W H : Nat} {grid : Grid} {s t : Cell} {vis : Table Bool}
    {par : Table Cell} {pend : List Cell} {d : Cell → Nat}
    (hc : Core W H grid s t vis par pend d) :
    ∀ (k : Nat) (c : Cell), vis c.1 c.2 = true → d c = k → Reach W H grid s k c := by
  intro k
  induction k with
  | zero =>
    intro c hv hd
    by_cases hcs : c = s
    · rw [hcs]; exact Reach.start
    · have := (hc.link c hv hcs).2.2.2
      omega
  | succ k ih =>
    intro c hv hd
    by_cases hcs : c = s
    · rw [hcs, hc.start_d] at hd
      omega
    · obtain ⟨l1, l2, l3, l4⟩ := hc.link c hv hcs
      exact Reach.step (ih _ l1 (by omega)) l2 (isValid_free.1 l3)

theorem Core.closed {W H : Nat} {grid : Grid} {s t : Cell} {vis : Table Bool}
    {par : Table Cell} {d : Cell → Nat} (hc : Core W H grid s t vis par [] d)
    {n : Nat} {c : Cell} (hr : Reach W H grid s n c) : vis c.1 c.2 = true := by
  induction hr with
  | start => exact hc.start_vis
  | step _ hadj hfree ih =>
    obtain ⟨dd, hdd, rfl⟩ := adjacent_iff_dirs.1 hadj
    exact (hc.done_nb _ ih (List.not_mem_nil _) dd hdd (isValid_free.2 hfree)).1

theorem Core.lower {W H : Nat} {grid : Grid} {s t h : Cell} {vis : Table Bool}
    {par : Table Cell} {q : List Cell} {d : Cell → Nat}
    (hc : Core W H grid s t vis par (h :: q) d)
    {n : Nat} {c : Cell} (hr : Reach W H grid s n c) :
    n ≤ d h → vis c.1 c.2 = true ∧ d c ≤ n := by
  induction hr with
  | start => exact fun _ => ⟨hc.start_vis, by rw [hc.start_d]⟩
  | @step m a b _ hadj hfree ih =>
    intro hle
    obtain ⟨hva, hda⟩ := ih (by omega)
    have hnot : a ∉ h :: q := by
      intro hm
      have := hc.pend_head_le a hm
      omega
    obtain ⟨dd, hdd, rfl⟩ := adjacent_iff_dirs.1 hadj
    obtain ⟨n1, n2⟩ := hc.done_nb a hva hnot dd hdd (isValid_free.2 hfree)
    exact ⟨n1, by omega⟩

theorem paint_cons (grid : Grid) (c : Cell) (cells : List Cell) :
    paint grid (c :: cells) = paint (grid.set c.1 c.2 PATH) cells := rfl

theorem paint_apply (cells : List Cell) :
    ∀ (grid : Grid) (c : Cell),
      paint grid cells c.1 c.2 = if c ∈ cells then PATH else grid c.1 c.2 := by
  induction cells with
  | nil => intro grid c; simp [paint]
  | cons a cells ih =>
    intro grid c
    rw [paint_cons, ih, Table.set_cell]
    by_cases h1 : c ∈ cells
    · simp [h1]
    · by_cases h2 : c = a
      · simp [h2]
      · simp [h1, h2]

theorem reconstruct_spec {W H : Nat} {grid : Grid} {s t : Cell} {vis : Table Bool}
    {par : Table Cell} {pend : List Cell} {d : Cell → Nat}
    (hc : Core W H grid s t vis par pend d) :
    ∀ (k : Nat) (c : Cell) (g0 : Grid) (fuel : Nat),
      vis c.1 c.2 = true → d c = k → k < fuel →
      ∃ tr : List Cell,
        reconstruct W H s.1 s.2 par fuel g0 c.1 c.2 = .ok (paint g0 tr.dropLast, tr) ∧
        tr.length = k + 1 ∧ tr.head? = some c ∧ tr.getLast? = some s ∧
        List.Chain' (fun a b => adjacent b a) tr ∧
        ∀ a ∈ tr.dropLast, isValid W H grid a.1 a.2 = true ∧ a ≠ s := by
  intro k
  induction k with
  | zero =>
    intro c g0 fuel hv hd hf
    have hcs : c = s := by
      by_contra hcs
      have := (hc.link c hv hcs).2.2.2
      omega
    obtain ⟨f, rfl⟩ : ∃ f, fuel = f + 1 := ⟨fuel - 1, by omega⟩
    refine ⟨[c], ?_, rfl, rfl, by simp [hcs], List.chain'_singleton _, by simp⟩
    rw [reconstruct, hcs]
    simp [paint, pure, Except.pure]
  | succ k ih =>
    intro c g0 fuel hv hd hf
    have hcs : c ≠ s := by
      intro hcs
      rw [hcs, hc.start_d] at hd
      omega
    obtain ⟨l1, l2, l3, l4⟩ := hc.link c hv hcs
    obtain ⟨f, rfl⟩ : ∃ f, fuel = f + 1 := ⟨fuel - 1, by omega⟩
    obtain ⟨tr, r1, r2, r3, r4, r5, r6⟩ :=
      ih (par c.1 c.2) (g0.set c.1 c.2 PATH) f l1 (by omega) (by omega)
    have hne : tr ≠ [] := by
      intro h0
      rw [h0] at r2
      simp at r2
    have hcond : c.1 ≠ s.1 ∨ c.2 ≠ s.2 := by
      by_contra hn
      push_neg at hn
      exact hcs (Prod.ext hn.1 hn.2)
    refine ⟨c :: tr, ?_, by simp [r2], rfl, ?_, ?_, ?_⟩
    · rw [reconstruct, if_pos hcond]
      simp only [writeAt, readAt, hc.vis_inb c hv, if_true, bind, Except.bind]
      rw [r1]
      simp only [pure, Except.pure, List.dropLast_cons_of_ne_nil hne, paint_cons]
    · obtain ⟨b, tr1, rfl⟩ := List.exists_cons_of_ne_nil hne
      rw [List.getLast?_cons_cons]
      exact r4
    · rw [List.chain'_cons']
      refine ⟨?_, r5⟩
      intro y hy
      rw [r3] at hy
      cases hy
      exact l2
    · rw [List.dropLast_cons_of_ne_nil hne]
      intro a ha
      rcases List.mem_cons.1 ha with rfl | ha
      · exact ⟨l3, hcs⟩
      · exact r6 a ha

/-! ## The outer loop and the whole call -/

theorem bfs_spec {W H : Nat} {grid : Grid} {s t : Cell} :
    ∀ (fuel : Nat) (st : Search) (d : Cell → Nat),
      Core W H grid s t st.visited st.parent st.q d →
      (unvisited W H st.visited).card + st.q.length < fuel →
      ∃ out, bfs W H grid s.1 s.2 t.1 t.2 fuel st = .ok out ∧ Post W H grid s t out := by
  intro fuel
  induction fuel with
  | zero => intro st d _ hf; omega
  | succ f ih =>
    intro st d hc hf
    obtain ⟨vis, par, q⟩ := st
    cases q with
    | nil =>
      refine ⟨⟨grid, none⟩, by simp [bfs, pure, Except.pure], Or.inl ⟨rfl, rfl, ?_⟩⟩
      intro n hr
      exact hc.done_t t (hc.closed hr) (List.not_mem_nil _) rfl
    | cons h rest =>
      obtain ⟨x, y⟩ := h
      by_cases ht : (x, y) = t
      · have hv : vis x y = true := hc.pend_vis (x, y) (List.mem_cons_self _ _)
        have hb := hc.bound (x, y) hv
        obtain ⟨tr, r1, r2, r3, r4, r5, r6⟩ :=
          reconstruct_spec hc (d (x, y)) (x, y) grid (W * H) hv rfl (by omega)
        have hcond : x = t.1 ∧ y = t.2 := by rw [← ht]; exact ⟨rfl, rfl⟩
        refine ⟨⟨paint grid tr.dropLast, some tr⟩, ?_,
          Or.inr ⟨tr, rfl, rfl, ?_, r4, r5, r6, ?_, ?_, by omega⟩⟩
        · simp only [bfs, if_pos hcond, bind, Except.bind]
          have r1' : reconstruct W H s.1 s.2 par (W * H) grid x y =
            .ok (paint grid tr.dropLast, tr) := r1
          rw [r1']
          rfl
        · rw [r3, ht]
        · rw [r2, ← ht]
          exact hc.reach_of_visited _ _ hv rfl
        · intro n hr
          rw [r2]
          by_cases hle : n ≤ d (x, y)
          · rw [← ht] at hr
            have := (hc.lower hr hle).2
            omega
          · omega
      · have hcond : ¬ (x = t.1 ∧ y = t.2) := fun hx => ht (Prod.ext hx.1 hx.2)
        obtain ⟨d1, c1, u1⟩ := expand_core hc ht
        have hlen : (unvisited W H
            (dirs.foldl (visitStep W H grid x y) ⟨vis, par, rest⟩).visited).card +
            (dirs.foldl (visitStep W H grid x y) ⟨vis, par, rest⟩).q.length < f := by
          have u1' : (unvisited W H
            (dirs.foldl (visitStep W H grid x y) ⟨vis, par, rest⟩).visited).card +
            (dirs.foldl (visitStep W H grid x y) ⟨vis, par, rest⟩).q.length =
            (unvisited W H vis).card + rest.length := u1
          simp only [List.length_cons] at hf
          omega
        obtain ⟨out, o1, o2⟩ := ih _ d1 c1 hlen
        refine ⟨out, ?_, o2⟩
        simp only [bfs, if_neg hcond, expand_eq, bind, Except.bind]
        exact o1

theorem core_init {W H : Nat} (grid : Grid) (s t : Cell) (hs : inBounds W H s.1 s.2 = true) :
    Core W H grid s t (Table.set (fun _ _ => false) s.1 s.2 true) (fun _ _ => (-1, -1)) [s]
      (fun _ => 0) := by
  have hv1 : ∀ c : Cell, Table.set (fun _ _ => false) s.1 s.2 true c.1 c.2 = true ↔ c = s := by
    intro c
    rw [Table.set_cell]
    by_cases hcs : c = s <;> simp [hcs]
  have hmem : ∀ c : Cell, Table.set (fun _ _ => false) s.1 s.2 true c.1 c.2 = true →
      c ∉ [s] → False := fun c hv hm => hm (List.mem_singleton.2 ((hv1 c).1 hv))
  constructor
  · exact (hv1 s).2 rfl
  · rfl
  · intro c hv
    rw [(hv1 c).1 hv]; exact hs
  · intro c hv hcs
    exact absurd ((hv1 c).1 hv) hcs
  · intro c hm
    exact (hv1 c).2 (List.mem_singleton.1 hm)
  · exact List.pairwise_singleton _ _
  · intro a _ b _
    exact Nat.zero_le _
  · exact fun c hv hm => (hmem c hv hm).elim
  · exact fun c hv hm => (hmem c hv hm).elim
  · exact fun c hv hm => (hmem c hv hm).elim
  · intro c _
    have h1 := unvisited_set W H (fun _ _ => false) s.1 s.2 hs rfl
    have h2 := unvisited_init W H
    omega

/-- Total correctness of a call with an in-bounds start: the call finishes
without a fault and leaves an outcome that satisfies `Post`. -/
theorem findShortestPath_spec (W H : Nat) (grid : Grid) (s t : Cell)
    (hs : inBounds W H s.1 s.2 = true) :
    ∃ out, findShortestPath W H grid s.1 s.2 t.1 t.2 = .ok out ∧ Post W H grid s t out := by
  have h1 := unvisited_set W H (fun _ _ => false) s.1 s.2 hs rfl
  have h2 := unvisited_init W H
  obtain ⟨out, o1, o2⟩ := bfs_spec (W * H + 1)
    ⟨Table.set (fun _ _ => false) s.1 s.2 true, fun _ _ => (-1, -1), [s]⟩ (fun _ => 0)
    (core_init grid s t hs) (by simp only [List.length_singleton]; omega)
  refine ⟨out, ?_, o2⟩
  simp only [findShortestPath, writeAt, hs, if_true, bind, Except.bind]
  exact o1

/-! ## Routes and walks -/

theorem route_reach {W H : Nat} {grid : Grid} {s t : Cell} (steps : List Cell) :
    ∀ (a : Cell) (n : Nat), Reach W H grid s n a → List.Chain adjacent a steps →
      (∀ c ∈ steps, free W H grid c) → (a :: steps).getLast? = some t →
      Reach W H grid s (n + steps.length) t := by
  induction steps with
  | nil =>
    intro a n hr _ _ hl
    simp only [List.getLast?_singleton, Option.some.injEq] at hl
    rw [← hl]
    exact hr
  | cons b steps ih =>
    intro a n hr hch hfree hl
    rw [List.chain_cons] at hch
    rw [List.getLast?_cons_cons] at hl
    have := ih b (n + 1) (Reach.step hr hch.1 (hfree b (List.mem_cons_self _ _))) hch.2
      (fun c hc => hfree c (List.mem_cons_of_mem _ hc)) hl
    rw [List.length_cons]
    have he : n + (steps.length + 1) = n + 1 + steps.length := by omega
    rw [he]
    exact this

theorem IsRoute.to_reach {W H : Nat} {grid : Grid} {s t : Cell} {steps : List Cell}
    (h : IsRoute W H grid s t steps) : Reach W H grid s steps.length t := by
  have := route_reach steps s 0 Reach.start h.1 h.2.1 h.2.2
  rwa [Nat.zero_add] at this

theorem trace_route {W H : Nat} {grid : Grid} {s t : Cell} {tr : List Cell}
    (hhead : tr.head? = some t) (hlast : tr.getLast? = some s)
    (hch : List.Chain' (fun a b => adjacent b a) tr)
    (hval : ∀ c ∈ tr.dropLast, isValid W H grid c.1 c.2 = true ∧ c ≠ s) :
    IsRoute W H grid s t tr.dropLast.reverse := by
  obtain ⟨init, rfl⟩ := List.getLast?_eq_some_iff.1 hlast
  rw [List.dropLast_concat] at hval ⊢
  have hrev : (init ++ [s]).reverse = s :: init.reverse := by simp
  refine ⟨?_, ?_, ?_⟩
  · have h1 : List.Chain' adjacent (init ++ [s]).reverse := List.chain'_reverse.2 hch
    rw [hrev] at h1
    exact h1
  · intro c hc
    exact isValid_free.1 (hval c (List.mem_reverse.1 hc)).1
  · rw [← hrev, List.getLast?_reverse]
    exact hhead

theorem mem_trace {tr : List Cell} {s c : Cell} (hlast : tr.getLast? = some s)
    (hc : c ∈ tr) : c ∈ tr.dropLast ∨ c = s := by
  obtain ⟨init, rfl⟩ := List.getLast?_eq_some_iff.1 hlast
  rw [List.dropLast_concat]
  simpa using hc

theorem hops_eq (tr : List Cell) : tr.dropLast.reverse.length = hops tr := by
  simp [hops]

/-! ## Dependence on the grid, and further lemmas for the claims -/

theorem shortest_of_route {W H : Nat} {grid : Grid} {s t : Cell}
    (hs : inBounds W H s.1 s.2 = true) (hroute : ∃ steps, IsRoute W H grid s t steps) :
    ∃ out tr, findShortestPath W H grid s.1 s.2 t.1 t.2 = .ok out ∧ out.route = some tr ∧
      IsRoute W H grid s t tr.dropLast.reverse ∧ tr.dropLast.reverse.length = hops tr ∧
      ∀ steps, IsRoute W H grid s t steps → hops tr ≤ steps.length := by
  obtain ⟨out, hrun, hpost⟩ := findShortestPath_spec W H grid s t hs
  obtain ⟨steps0, h0⟩ := hroute
  rcases hpost with ⟨_, _, hno⟩ | ⟨tr, p1, _, p3, p4, p5, p6, _, p8, _⟩
  · exact absurd h0.to_reach (hno _)
  · refine ⟨out, tr, hrun, p1, trace_route p3 p4 p5 p6, hops_eq tr, ?_⟩
    intro steps hst
    have := p8 _ hst.to_reach
    unfold hops
    omega

theorem gridBlocked_no_route : ¬ ∃ steps, IsRoute 3 1 gridBlocked (0, 0) (2, 0) steps := by
  rintro ⟨steps, hch, hfree, hlast⟩
  cases steps with
  | nil => exact absurd hlast (by decide)
  | cons b rest =>
    have hadj := (List.chain_cons.1 hch).1
    have hb := hfree b (List.mem_cons_self _ _)
    obtain ⟨b1, b2⟩ := b
    unfold adjacent at hadj
    unfold free at hb
    simp only at hadj hb
    have hb12 : b1 = 1 ∧ b2 = 0 := by omega
    obtain ⟨rfl, rfl⟩ := hb12
    exact hb.2 (by decide)

theorem reconstruct_route_congr (W H : Nat) (sx sy : Int) (par : Table Cell) :
    ∀ (fuel : Nat) (g g1 : Grid) (x y : Int),
      Except.map Prod.snd (reconstruct W H sx sy par fuel g x y) =
        Except.map Prod.snd (reconstruct W H sx sy par fuel g1 x y) := by
  intro fuel
  induction fuel with
  | zero => intro g g1 x y; rfl
  | succ f ih =>
    intro g g1 x y
    rw [reconstruct, reconstruct]
    by_cases hcond : x ≠ sx ∨ y ≠ sy
    · rw [if_pos hcond, if_pos hcond]
      by_cases hb : inBounds W H x y = true
      · simp only [writeAt, readAt, hb, if_true, bind, Except.bind]
        have := ih (g.set x y PATH) (g1.set x y PATH) (par x y).1 (par x y).2
        revert this
        cases reconstruct W H sx sy par f (g.set x y PATH) (par x y).1 (par x y).2 <;>
          cases reconstruct W H sx sy par f (g1.set x y PATH) (par x y).1 (par x y).2 <;>
          simp [Except.map, pure, Except.pure]
      · simp [writeAt, hb, bind, Except.bind, Except.map]
    · rw [if_neg hcond, if_neg hcond]
      rfl

theorem visitStep_congr {W H : Nat} {g g1 : Grid} (hval : isValid W H g = isValid W H g1)
    (x y : Int) : visitStep W H g x y = visitStep W H g1 x y := by
  funext st d
  unfold visitStep
  rw [hval]

theorem bfs_route_congr {W H : Nat} {g g1 : Grid} (hval : isValid W H g = isValid W H g1)
    (sx sy tx ty : Int) :
    ∀ (fuel : Nat) (st : Search),
      routeOf (bfs W H g sx sy tx ty fuel st) = routeOf (bfs W H g1 sx sy tx ty fuel st) := by
  intro fuel
  induction fuel with
  | zero => intro st; rfl
  | succ f ih =>
    intro st
    obtain ⟨vis, par, q⟩ := st
    cases q with
    | nil => simp [bfs, routeOf, pure, Except.pure]
    | cons h rest =>
      obtain ⟨x, y⟩ := h
      by_cases hcond : x = tx ∧ y = ty
      · simp only [bfs, if_pos hcond, bind, Except.bind]
        have := reconstruct_route_congr W H sx sy par (W * H) g g1 x y
        revert this
        cases reconstruct W H sx sy par (W * H) g x y <;>
          cases reconstruct W H sx sy par (W * H) g1 x y <;>
          simp [Except.map, pure, Except.pure, routeOf]
      · simp only [bfs, if_neg hcond, expand_eq, bind, Except.bind]
        rw [visitStep_congr hval]
        exact ih _

theorem findShortestPath_route_congr {W H : Nat} {g g1 : Grid}
    (hval : isValid W H g = isValid W H g1) (sx sy tx ty : Int) :
    routeOf (findShortestPath W H g sx sy tx ty) =
      routeOf (findShortestPath W H g1 sx sy tx ty) := by
  unfold findShortestPath
  by_cases hb : inBounds W H sx sy = true
  · simp only [writeAt, hb, if_true, bind, Except.bind]
    exact bfs_route_congr hval sx sy tx ty _ _
  · simp [writeAt, hb, bind, Except.bind, routeOf]

theorem isValid_paint {W H : Nat} {grid : Grid} {cells : List Cell}
    (hcells : ∀ c ∈ cells, isValid W H grid c.1 c.2 = true) :
    isValid W H (paint grid cells) = isValid W H grid := by
  funext x y
  have hp := paint_apply cells grid (x, y)
  simp only at hp
  by_cases hm : (x, y) ∈ cells
  · have h1 := hcells (x, y) hm
    rw [if_pos hm] at hp
    rw [Bool.eq_iff_iff, isValid_iff, isValid_iff, hp]
    rw [isValid_iff] at h1
    simp only at h1
    constructor
    · exact fun _ => h1
    · exact fun h => ⟨h.1, by decide⟩
  · rw [if_neg hm] at hp
    rw [Bool.eq_iff_iff, isValid_iff, isValid_iff, hp]

theorem paint_paint (grid : Grid) (cells : List Cell) :
    paint (paint grid cells) cells = paint grid cells := by
  funext x y
  have h1 := paint_apply cells (paint grid cells) (x, y)
  have h2 := paint_apply cells grid (x, y)
  simp only at h1 h2
  rw [h1, h2]
  by_cases hm : (x, y) ∈ cells <;> simp [hm]

theorem free_addWall {W H : Nat} {grid : Grid} {c a : Cell}
    (h : free W H (addWall grid c) a) : free W H grid a := by
  refine ⟨h.1, ?_⟩
  have h2 := h.2
  unfold addWall at h2
  rw [Table.set_cell] at h2
  by_cases hac : a = c
  · rw [if_pos hac] at h2
    exact absurd rfl h2
  · rwa [if_neg hac] at h2

theorem IsRoute.of_addWall {W H : Nat} {grid : Grid} {c s t : Cell} {steps : List Cell}
    (h : IsRoute W H (addWall grid c) s t steps) : IsRoute W H grid s t steps :=
  ⟨h.1, fun a ha => free_addWall (h.2.1 a ha), h.2.2⟩

/-- For distinct start and target, a call that dequeues the target leaves the
start cell as it was and leaves the target cell in state `PATH`. -/
theorem endpoints_after (W H : Nat) (grid : Grid) (s t : Cell)
    (hs : inBounds W H s.1 s.2 = true) (hst : s ≠ t) :
    ∃ out, findShortestPath W H grid s.1 s.2 t.1 t.2 = .ok out ∧
      out.grid s.1 s.2 = grid s.1 s.2 ∧
      ∀ tr, out.route = some tr → out.grid t.1 t.2 = PATH := by
  obtain ⟨out, hrun, hpost⟩ := findShortestPath_spec W H grid s t hs
  refine ⟨out, hrun, ?_, ?_⟩
  · rcases hpost with ⟨_, p2, _⟩ | ⟨tr, _, p2, _, _, _, p6, _, _, _⟩
    · rw [p2]
    · rw [p2, paint_apply, if_neg]
      exact fun hm => (p6 s hm).2 rfl
  · intro tr htr
    rcases hpost with ⟨p1, _, _⟩ | ⟨tr1, _, p2, p3, p4, _, _, _, _, _⟩
    · rw [p1] at htr
      exact Option.noConfusion htr
    · obtain ⟨init, rfl⟩ := List.getLast?_eq_some_iff.1 p4
      rw [p2, paint_apply, List.dropLast_concat, if_pos]
      cases init with
      | nil =>
        simp only [List.nil_append, List.head?_cons, Option.some.injEq] at p3
        exact absurd p3 hst
      | cons a l =>
        simp only [List.cons_append, List.head?_cons, Option.some.injEq] at p3
        rw [p3]
        exact List.mem_cons_self _ _

/-! ## The claims -/

/-- C1: on every grid, for in-bounds non-Wall cells `s` and `t`, if some
sequence of up/down/left/right steps through in-bounds non-Wall cells leads
from `s` to `t`, the call finishes having dequeued the target, and the number
of parent links it walks back from `t` to `s` is the minimum number of steps
over all such sequences: the walk itself, read backwards, is such a sequence
with exactly that many steps, and no such sequence has fewer. -/
theorem findShortestPath_shortest (W H : Nat) (grid : Grid) (s t : Cell)
    (hs : free W H grid s) (ht : free W H grid t)
    (hroute : ∃ steps, IsRoute W H grid s t steps) :
    ∃ out tr, findShortestPath W H grid s.1 s.2 t.1 t.2 = .ok out ∧ out.route = some tr ∧
      IsRoute W H grid s t tr.dropLast.reverse ∧ tr.dropLast.reverse.length = hops tr ∧
      ∀ steps, IsRoute W H grid s t steps → hops tr ≤ steps.length :=
  have _ := ht
  shortest_of_route (inBounds_iff.2 hs.1) hroute

theorem findShortestPath_shortest_witness :
    free 5 5 grid55 (0, 0) ∧ free 5 5 grid55 (4, 0) ∧
      IsRoute 5 5 grid55 (0, 0) (4, 0) walk55.dropLast.reverse ∧
      ∃ out tr, findShortestPath 5 5 grid55 0 0 4 0 = .ok out ∧ out.route = some tr ∧
        IsRoute 5 5 grid55 (0, 0) (4, 0) tr.dropLast.reverse ∧
        tr.dropLast.reverse.length = hops tr ∧
        ∀ steps, IsRoute 5 5 grid55 (0, 0) (4, 0) steps → hops tr ≤ steps.length :=
  ⟨by decide, by decide, by decide,
    findShortestPath_shortest 5 5 grid55 (0, 0) (4, 0) (by decide) (by decide)
      ⟨walk55.dropLast.reverse, by decide⟩⟩

/-- C2: on every grid, for in-bounds non-Wall cells `s` and `t`, the call
finishes, and when it has dequeued the target the cells it walked through
from `t` back to `s` form a valid route: the first is `t`, the last is `s`,
consecutive cells are exactly one step up, down, left or right apart, and
every cell is in bounds and not a Wall. -/
theorem findShortestPath_route_valid (W H : Nat) (grid : Grid) (s t : Cell)
    (hs : free W H grid s) (ht : free W H grid t) :
    ∃ out, findShortestPath W H grid s.1 s.2 t.1 t.2 = .ok out ∧
      ∀ tr, out.route = some tr →
        tr.head? = some t ∧ tr.getLast? = some s ∧ List.Chain' adjacent tr ∧
          ∀ c ∈ tr, free W H grid c := by
  have _ := ht
  obtain ⟨out, hrun, hpost⟩ := findShortestPath_spec W H grid s t (inBounds_iff.2 hs.1)
  refine ⟨out, hrun, ?_⟩
  intro tr htr
  rcases hpost with ⟨hnone, _, _⟩ | ⟨tr1, p1, _, p3, p4, p5, p6, _, _, _⟩
  · rw [hnone] at htr
    exact Option.noConfusion htr
  · rw [p1] at htr
    obtain rfl : tr1 = tr := Option.some.inj htr
    refine ⟨p3, p4, p5.imp (fun _ _ hab => adjacent_symm hab), ?_⟩
    intro c hc
    rcases mem_trace p4 hc with hc1 | hc1
    · exact isValid_free.1 (p6 c hc1).1
    · rw [hc1]; exact hs

theorem findShortestPath_route_valid_witness :
    free 5 5 grid55 (0, 0) ∧ free 5 5 grid55 (4, 0) ∧
      ∃ out, findShortestPath 5 5 grid55 0 0 4 0 = .ok out ∧
        ∀ tr, out.route = some tr →
          tr.head? = some (4, 0) ∧ tr.getLast? = some (0, 0) ∧ List.Chain' adjacent tr ∧
            ∀ c ∈ tr, free 5 5 grid55 c :=
  ⟨by decide, by decide,
    findShortestPath_route_valid 5 5 grid55 (0, 0) (4, 0) (by decide) (by decide)⟩

/-- C3, evaluated: on the 3×1 corridor `grid31` (Start `(0,0)`, Target
`(2,0)`) the call walks `(2,0)`, `(1,0)`, `(0,0)`; afterwards the start cell
still holds `START`, but the target cell, which held `TARGET`, holds `PATH`. -/
theorem target_overwritten :
    grid31 0 0 = START ∧ grid31 2 0 = TARGET ∧
      routeOf (findShortestPath 3 1 grid31 0 0 2 0) = some [(2, 0), (1, 0), (0, 0)] ∧
      gridAt (findShortestPath 3 1 grid31 0 0 2 0) 0 0 = some START ∧
      gridAt (findShortestPath 3 1 grid31 0 0 2 0) 1 0 = some PATH ∧
      gridAt (findShortestPath 3 1 grid31 0 0 2 0) 2 0 = some PATH := by
  decide

/-- C4, as stated, fails: on the 2×2 grid `gridStale` the cell `(0,1)` is
`PATH` before the call from `(0,0)` to `(1,0)`, does not lie on the walk of
that call, and is still `PATH` after it. -/
theorem stale_path_persists :
    gridStale 0 1 = PATH ∧
      routeOf (findShortestPath 2 2 gridStale 0 0 1 0) = some [(1, 0), (0, 0)] ∧
      ((0, 1) : Cell) ∉ [((1, 0) : Cell), (0, 0)] ∧
      gridAt (findShortestPath 2 2 gridStale 0 0 1 0) 0 1 = some PATH := by
  decide

/-- C4, as the code has it: on every grid (possibly with `PATH` cells left by
an earlier search), for in-bounds non-Wall `s` and `t`, the call finishes;
afterwards every `PATH` cell either lies on the walk of this call or was
already `PATH` before the call, and every cell that was `PATH` before the
call still is. -/
theorem findShortestPath_path_cells (W H : Nat) (grid : Grid) (s t : Cell)
    (hs : free W H grid s) (ht : free W H grid t) :
    ∃ out, findShortestPath W H grid s.1 s.2 t.1 t.2 = .ok out ∧
      (∀ c : Cell, out.grid c.1 c.2 = PATH →
        grid c.1 c.2 = PATH ∨ ∃ tr, out.route = some tr ∧ c ∈ tr) ∧
      ∀ c : Cell, grid c.1 c.2 = PATH → out.grid c.1 c.2 = PATH := by
  have _ := ht
  obtain ⟨out, hrun, hpost⟩ := findShortestPath_spec W H grid s t (inBounds_iff.2 hs.1)
  refine ⟨out, hrun, ?_, ?_⟩
  · intro c hc
    rcases hpost with ⟨_, p2, _⟩ | ⟨tr, p1, p2, _, _, _, _, _, _, _⟩
    · rw [p2] at hc
      exact Or.inl hc
    · rw [p2, paint_apply] at hc
      by_cases hm : c ∈ tr.dropLast
      · exact Or.inr ⟨tr, p1, List.mem_of_mem_dropLast hm⟩
      · rw [if_neg hm] at hc
        exact Or.inl hc
  · intro c hc
    rcases hpost with ⟨_, p2, _⟩ | ⟨tr, _, p2, _, _, _, _, _, _, _⟩
    · rw [p2]; exact hc
    · rw [p2, paint_apply]
      by_cases hm : c ∈ tr.dropLast
      · rw [if_pos hm]
      · rw [if_neg hm]; exact hc

theorem findShortestPath_path_cells_witness :
    free 2 2 gridStale (0, 0) ∧ free 2 2 gridStale (1, 0) ∧
      ∃ out, findShortestPath 2 2 gridStale 0 0 1 0 = .ok out ∧
        (∀ c : Cell, out.grid c.1 c.2 = PATH →
          gridStale c.1 c.2 = PATH ∨ ∃ tr, out.route = some tr ∧ c ∈ tr) ∧
        ∀ c : Cell, gridStale c.1 c.2 = PATH → out.grid c.1 c.2 = PATH :=
  ⟨by decide, by decide,
    findShortestPath_path_cells 2 2 gridStale (0, 0) (1, 0) (by decide) (by decide)⟩

/-- C5: on every grid, for in-bounds `s` and `t`, if no sequence of
up/down/left/right steps through in-bounds non-Wall cells leads from `s`
to `t`, the call finishes without dequeuing the target and leaves the grid
exactly as it was: no cell becomes `PATH`, and every cell keeps its state. -/
theorem findShortestPath_no_route (W H : Nat) (grid : Grid) (s t : Cell)
    (hs : inBounds W H s.1 s.2 = true) (ht : inBounds W H t.1 t.2 = true)
    (hno : ¬ ∃ steps, IsRoute W H grid s t steps) :
    ∃ out, findShortestPath W H grid s.1 s.2 t.1 t.2 = .ok out ∧ out.route = none ∧
      out.grid = grid := by
  have _ := ht
  obtain ⟨out, hrun, hpost⟩ := findShortestPath_spec W H grid s t hs
  rcases hpost with ⟨p1, p2, _⟩ | ⟨tr, _, _, p3, p4, p5, p6, _, _, _⟩
  · exact ⟨out, hrun, p1, p2⟩
  · exact absurd ⟨_, trace_route p3 p4 p5 p6⟩ hno

theorem findShortestPath_no_route_witness :
    inBounds 3 1 0 0 = true ∧ inBounds 3 1 2 0 = true ∧
      ∃ out, findShortestPath 3 1 gridBlocked 0 0 2 0 = .ok out ∧ out.route = none ∧
        out.grid = gridBlocked :=
  ⟨by decide, by decide,
    findShortestPath_no_route 3 1 gridBlocked (0, 0) (2, 0) (by decide) (by decide)
      gridBlocked_no_route⟩

/-- C6: on every grid, for in-bounds `s` and `t`, two calls in succession
with the same start and target both finish, and the grid after the second
call equals the grid after the first (so the `PATH` cells are the same); the
second call walks the same cells as the first. -/
theorem findShortestPath_twice (W H : Nat) (grid : Grid) (s t : Cell)
    (hs : inBounds W H s.1 s.2 = true) (ht : inBounds W H t.1 t.2 = true) :
    ∃ out1 out2, findShortestPath W H grid s.1 s.2 t.1 t.2 = .ok out1 ∧
      findShortestPath W H out1.grid s.1 s.2 t.1 t.2 = .ok out2 ∧
      out2.grid = out1.grid ∧ out2.route = out1.route := by
  have _ := ht
  obtain ⟨out1, hrun1, hpost1⟩ := findShortestPath_spec W H grid s t hs
  obtain ⟨out2, hrun2, hpost2⟩ := findShortestPath_spec W H out1.grid s t hs
  have hval : isValid W H out1.grid = isValid W H grid := by
    rcases hpost1 with ⟨_, p2, _⟩ | ⟨tr, _, p2, _, _, _, p6, _, _, _⟩
    · rw [p2]
    · rw [p2]; exact isValid_paint fun c hc => (p6 c hc).1
  have hroute : out2.route = out1.route := by
    have := findShortestPath_route_congr hval s.1 s.2 t.1 t.2
    rw [hrun1, hrun2] at this
    exact this
  refine ⟨out1, out2, hrun1, hrun2, ?_, hroute⟩
  rcases hpost1 with ⟨p1, _, _⟩ | ⟨tr, p1, p2, _, _, _, _, _, _, _⟩
  · rcases hpost2 with ⟨_, q2, _⟩ | ⟨tr2, q1, _, _, _, _, _, _, _, _⟩
    · exact q2
    · rw [hroute, p1] at q1
      exact Option.noConfusion q1
  · rcases hpost2 with ⟨q1, _, _⟩ | ⟨tr2, q1, q2, _, _, _, _, _, _, _⟩
    · rw [hroute, p1] at q1
      exact Option.noConfusion q1
    · rw [hroute, p1] at q1
      obtain rfl : tr = tr2 := Option.some.inj q1
      rw [q2, p2, paint_paint]

theorem findShortestPath_twice_witness :
    inBounds 5 5 0 0 = true ∧ inBounds 5 5 4 0 = true ∧
      ∃ out1 out2, findShortestPath 5 5 grid55 0 0 4 0 = .ok out1 ∧
        findShortestPath 5 5 out1.grid 0 0 4 0 = .ok out2 ∧
        out2.grid = out1.grid ∧ out2.route = out1.route :=
  ⟨by decide, by decide,
    findShortestPath_twice 5 5 grid55 (0, 0) (4, 0) (by decide) (by decide)⟩

/-- C7: on every grid `g`, for in-bounds non-Wall `s` and `t` and an
in-bounds cell `c` other than `s` and `t`, let `g1` be `g` with `c` set to
Wall.  Both calls finish; if the call on `g1` dequeues the target, so does
the call on `g`, and the walk back on `g` follows no more parent links than
the walk back on `g1`. -/
theorem findShortestPath_addWall (W H : Nat) (grid : Grid) (s t c : Cell)
    (hs : free W H grid s) (ht : free W H grid t) (hc : inBounds W H c.1 c.2 = true)
    (hcs : c ≠ s) (hct : c ≠ t) :
    ∃ out1 out, findShortestPath W H (addWall grid c) s.1 s.2 t.1 t.2 = .ok out1 ∧
      findShortestPath W H grid s.1 s.2 t.1 t.2 = .ok out ∧
      ∀ tr1, out1.route = some tr1 → ∃ tr, out.route = some tr ∧ hops tr ≤ hops tr1 := by
  have _ := ht
  have _ := hc
  have _ := hcs
  have _ := hct
  have hsb := inBounds_iff.2 hs.1
  obtain ⟨out1, hrun1, hpost1⟩ := findShortestPath_spec W H (addWall grid c) s t hsb
  obtain ⟨out, hrun, hpost⟩ := findShortestPath_spec W H grid s t hsb
  refine ⟨out1, out, hrun1, hrun, ?_⟩
  intro tr1 htr1
  rcases hpost1 with ⟨p1, _, _⟩ | ⟨tr1a, p1, _, p3, p4, p5, p6, _, _, _⟩
  · rw [p1] at htr1
    exact Option.noConfusion htr1
  · rw [p1] at htr1
    obtain rfl : tr1a = tr1 := Option.some.inj htr1
    have hr : IsRoute W H grid s t tr1a.dropLast.reverse := (trace_route p3 p4 p5 p6).of_addWall
    rcases hpost with ⟨_, _, hno⟩ | ⟨tr, q1, _, _, _, _, _, _, q8, _⟩
    · exact absurd hr.to_reach (hno _)
    · refine ⟨tr, q1, ?_⟩
      have := q8 _ hr.to_reach
      rw [hops_eq] at this
      unfold hops at *
      omega

theorem findShortestPath_addWall_witness :
    free 5 5 grid55 (0, 0) ∧ free 5 5 grid55 (4, 0) ∧ inBounds 5 5 3 0 = true ∧
      routeOf (findShortestPath 5 5 (addWall grid55 (3, 0)) 0 0 4 0) =
        some [(4, 0), (4, 1), (4, 2), (3, 2), (2, 2), (1, 2), (1, 1), (1, 0), (0, 0)] ∧
      ∃ out1 out, findShortestPath 5 5 (addWall grid55 (3, 0)) 0 0 4 0 = .ok out1 ∧
        findShortestPath 5 5 grid55 0 0 4 0 = .ok out ∧
        ∀ tr1, out1.route = some tr1 → ∃ tr, out.route = some tr ∧ hops tr ≤ hops tr1 :=
  ⟨by decide, by decide, by decide, by decide,
    findShortestPath_addWall 5 5 grid55 (0, 0) (4, 0) (3, 0) (by decide) (by decide)
      (by decide) (by decide) (by decide)⟩

/-- C8, evaluated: the 3×1 corridor `grid31` has no Wall and no Path cell and
the Manhattan distance from `(0,0)` to `(2,0)` is 2; after the call there are
2 `PATH` cells (the target among them), so the count plus one is 3, not 2. -/
theorem path_count_open_corridor :
    pathCount 3 1 grid31 = 0 ∧ manhattan (0, 0) (2, 0) = 2 ∧
      pathCountAfter 3 1 (findShortestPath 3 1 grid31 0 0 2 0) = some 2 := by
  decide

/-- C9, as stated, fails: on the 5×5 scenario the walk from `(4,0)` back to
`(0,0)` does not have 6 hops. -/
theorem scenario55_not_six :
    ¬ ((routeOf (findShortestPath 5 5 grid55 0 0 4 0)).map hops = some 6) := by
  decide

/-- C9, as the code has it: on the 5×5 scenario (Start `(0,0)`, Target
`(4,0)`, Walls at exactly `(2,0)` and `(2,1)`) the call finds a route, the
walk back has 8 hops, and every sequence of steps from `(0,0)` to `(4,0)`
through free cells has at least 8 steps. -/
theorem scenario55_eight :
    ∃ out tr, findShortestPath 5 5 grid55 0 0 4 0 = .ok out ∧ out.route = some tr ∧
      hops tr = 8 ∧ ∀ steps, IsRoute 5 5 grid55 (0, 0) (4, 0) steps → 8 ≤ steps.length := by
  obtain ⟨out, tr, hrun, htr, _, _, hmin⟩ :=
    @shortest_of_route 5 5 grid55 (0, 0) (4, 0) (by decide) ⟨walk55.dropLast.reverse, by decide⟩
  have hrun1 : findShortestPath 5 5 grid55 0 0 4 0 = .ok out := hrun
  have hw : routeOf (findShortestPath 5 5 grid55 0 0 4 0) = some walk55 := by decide
  rw [hrun1] at hw
  have hw1 : out.route = some walk55 := hw
  rw [htr] at hw1
  obtain rfl : tr = walk55 := Option.some.inj hw1
  exact ⟨out, walk55, hrun1, htr, by decide, hmin⟩

/-- C10: on every grid and for every in-bounds cell `c`, a call with start
and target both `c` finishes at once: the walk back consists of `c` alone
(no parent link is followed), no cell is painted, and the grid is returned
unchanged. -/
theorem findShortestPath_same_cell (W H : Nat) (grid : Grid) (c : Cell)
    (hc : inBounds W H c.1 c.2 = true) :
    ∃ out, findShortestPath W H grid c.1 c.2 c.1 c.2 = .ok out ∧ out.route = some [c] ∧
      out.grid = grid := by
  obtain ⟨out, hrun, hpost⟩ := findShortestPath_spec W H grid c c hc
  rcases hpost with ⟨_, _, hno⟩ | ⟨tr, p1, p2, p3, _, _, _, _, p8, _⟩
  · exact absurd Reach.start (hno 0)
  · have hlen := p8 0 Reach.start
    have htr : tr = [c] := by
      match tr, p3, hlen with
      | [a], h3, _ =>
        simp only [List.head?_cons, Option.some.injEq] at h3
        rw [h3]
      | a :: b :: l, _, hl =>
        simp only [List.length_cons] at hl
        omega
    rw [htr] at p1 p2
    exact ⟨out, hrun, p1, p2⟩

theorem findShortestPath_same_cell_witness :
    inBounds 5 5 2 2 = true ∧
      ∃ out, findShortestPath 5 5 grid55 2 2 2 2 = .ok out ∧ out.route = some [(2, 2)] ∧
        out.grid = grid55 :=
  ⟨by decide, findShortestPath_same_cell 5 5 grid55 (2, 2) (by decide)⟩

/-! ## Further claims on the search -/

theorem isValid_congr_inBounds {W H : Nat} {g g1 : Grid}
    (h : ∀ x y, inBounds W H x y = true → g1 x y = g x y) :
    isValid W H g1 = isValid W H g := by
  funext x y
  rw [Bool.eq_iff_iff, isValid_iff, isValid_iff]
  constructor
  · rintro ⟨hb, hw⟩
    exact ⟨hb, by rw [← h x y hb]; exact hw⟩
  · rintro ⟨hb, hw⟩
    exact ⟨hb, by rw [h x y hb]; exact hw⟩

theorem head_mem_dropLast {tr : List Cell} {s t : Cell} (hhead : tr.head? = some t)
    (hlast : tr.getLast? = some s) (hts : t ≠ s) : t ∈ tr.dropLast := by
  obtain ⟨init, rfl⟩ := List.getLast?_eq_some_iff.1 hlast
  rw [List.dropLast_concat]
  cases init with
  | nil =>
    simp only [List.nil_append, List.head?_cons, Option.some.injEq] at hhead
    exact absurd hhead.symm hts
  | cons a l =>
    simp only [List.cons_append, List.head?_cons, Option.some.injEq] at hhead
    rw [hhead]
    exact List.mem_cons_self _ _

/-- C11, as stated, fails: on the 2×1 grid `gridWallStart` the start `(0,0)`
is a Wall, yet the call from `(0,0)` to `(1,0)` is not rejected: the search
runs, dequeues the target and turns the Empty cell `(1,0)` into `PATH`. -/
theorem wall_start_not_rejected :
    gridWallStart 0 0 = WALL ∧ gridWallStart 1 0 = EMPTY ∧
      routeOf (findShortestPath 2 1 gridWallStart 0 0 1 0) = some [(1, 0), (0, 0)] ∧
      gridAt (findShortestPath 2 1 gridWallStart 0 0 1 0) 1 0 = some PATH := by
  decide

/-- C11, as the code has it: on every grid, for an in-bounds start `s` and a
target `t` that is out of bounds or a Wall cell, the call finishes and leaves
the grid unchanged; when `t` differs from `s` the search ends with the queue
empty, the target never dequeued.  (Nothing is reported; a start on a Wall is
searched from like any other cell.) -/
theorem findShortestPath_bad_target (W H : Nat) (grid : Grid) (s t : Cell)
    (hs : inBounds W H s.1 s.2 = true)
    (ht : inBounds W H t.1 t.2 = false ∨ grid t.1 t.2 = WALL) :
    ∃ out, findShortestPath W H grid s.1 s.2 t.1 t.2 = .ok out ∧ out.grid = grid ∧
      (t ≠ s → out.route = none) := by
  have hnv : ¬ isValid W H grid t.1 t.2 = true := by
    rw [isValid_iff]
    rintro ⟨hb, hw⟩
    rcases ht with ht | ht
    · rw [hb] at ht
      exact Bool.noConfusion ht
    · exact hw ht
  obtain ⟨out, hrun, hpost⟩ := findShortestPath_spec W H grid s t hs
  rcases hpost with ⟨p1, p2, _⟩ | ⟨tr, _, p2, p3, p4, _, p6, _, _, _⟩
  · exact ⟨out, hrun, p2, fun _ => p1⟩
  · by_cases hts : t = s
    · refine ⟨out, hrun, ?_, fun h => absurd hts h⟩
      rw [p2]
      funext x y
      have hp := paint_apply tr.dropLast grid (x, y)
      simp only at hp
      rw [hp, if_neg]
      intro hm
      obtain ⟨init, rfl⟩ := List.getLast?_eq_some_iff.1 p4
      rw [List.dropLast_concat] at hm p6
      cases init with
      | nil => exact absurd hm (List.not_mem_nil _)
      | cons a l =>
        simp only [List.cons_append, List.head?_cons, Option.some.injEq] at p3
        exact (p6 a (List.mem_cons_self _ _)).2 (p3.trans hts)
    · exact absurd (p6 t (head_mem_dropLast p3 p4 hts)).1 hnv

theorem findShortestPath_bad_target_witness :
    inBounds 3 1 0 0 = true ∧ (inBounds 3 1 1 0 = false ∨ gridBlocked 1 0 = WALL) ∧
      ∃ out, findShortestPath 3 1 gridBlocked 0 0 1 0 = .ok out ∧ out.grid = gridBlocked ∧
        (((1, 0) : Cell) ≠ (0, 0) → out.route = none) :=
  ⟨by decide, Or.inr (by decide),
    findShortestPath_bad_target 3 1 gridBlocked (0, 0) (1, 0) (by decide) (Or.inr (by decide))⟩

/-- C16: on every grid, for in-bounds `s` and `t`, the call finishes; a cell
whose state differs afterwards is `PATH`; a cell is a Wall afterwards exactly
when it was a Wall before; and every cell that is not on the walk from the
target back to the start (every cell, when the target was not dequeued) keeps
its state. -/
theorem findShortestPath_frame (W H : Nat) (grid : Grid) (s t : Cell)
    (hs : inBounds W H s.1 s.2 = true) (ht : inBounds W H t.1 t.2 = true) :
    ∃ out, findShortestPath W H grid s.1 s.2 t.1 t.2 = .ok out ∧
      (∀ c : Cell, out.grid c.1 c.2 ≠ grid c.1 c.2 → out.grid c.1 c.2 = PATH) ∧
      (∀ c : Cell, out.grid c.1 c.2 = WALL ↔ grid c.1 c.2 = WALL) ∧
      (∀ c : Cell, (∀ tr, out.route = some tr → c ∉ tr) → out.grid c.1 c.2 = grid c.1 c.2) := by
  have _ := ht
  obtain ⟨out, hrun, hpost⟩ := findShortestPath_spec W H grid s t hs
  refine ⟨out, hrun, ?_⟩
  rcases hpost with ⟨_, p2, _⟩ | ⟨tr, p1, p2, _, _, _, p6, _, _, _⟩
  · rw [p2]
    exact ⟨fun c h => absurd rfl h, fun c => Iff.rfl, fun c _ => rfl⟩
  · have hp : ∀ c : Cell, out.grid c.1 c.2 = if c ∈ tr.dropLast then PATH else grid c.1 c.2 := by
      intro c
      rw [p2, paint_apply]
    refine ⟨?_, ?_, ?_⟩
    · intro c hne
      rw [hp c] at hne ⊢
      by_cases hm : c ∈ tr.dropLast
      · rw [if_pos hm]
      · rw [if_neg hm] at hne
        exact absurd rfl hne
    · intro c
      rw [hp c]
      by_cases hm : c ∈ tr.dropLast
      · rw [if_pos hm]
        have hw := (isValid_iff.1 (p6 c hm).1).2
        constructor
        · intro h
          exact CellState.noConfusion h
        · intro h
          exact absurd h hw
      · rw [if_neg hm]
    · intro c hc
      rw [hp c, if_neg]
      exact fun hm => hc tr p1 (List.mem_of_mem_dropLast hm)

theorem findShortestPath_frame_witness :
    inBounds 5 5 0 0 = true ∧ inBounds 5 5 4 0 = true ∧
      ∃ out, findShortestPath 5 5 grid55 0 0 4 0 = .ok out ∧
        (∀ c : Cell, out.grid c.1 c.2 ≠ grid55 c.1 c.2 → out.grid c.1 c.2 = PATH) ∧
        (∀ c : Cell, out.grid c.1 c.2 = WALL ↔ grid55 c.1 c.2 = WALL) ∧
        (∀ c : Cell, (∀ tr, out.route = some tr → c ∉ tr) →
          out.grid c.1 c.2 = grid55 c.1 c.2) :=
  ⟨by decide, by decide, findShortestPath_frame 5 5 grid55 (0, 0) (4, 0) (by decide) (by decide)⟩

/-- C18: on every grid, for an in-bounds start `s` and any target whatsoever,
the call finishes without `Fault.outOfRange`: every checked read and write of
`grid`, `visited` and `parent` was in bounds.  Every cell the walk back steps
through is in bounds, so none is the sentinel `(-1,-1)`; cells outside the
bounds are never written; and the cells walked do not depend on what the grid
holds outside the bounds (the read in `isValid` is never out of bounds). -/
theorem findShortestPath_in_bounds (W H : Nat) (grid : Grid) (s : Cell) (targetX targetY : Int)
    (hs : inBounds W H s.1 s.2 = true) :
    ∃ out, findShortestPath W H grid s.1 s.2 targetX targetY = .ok out ∧
      (∀ tr, out.route = some tr →
        ∀ c ∈ tr, inBounds W H c.1 c.2 = true ∧ c ≠ ((-1, -1) : Cell)) ∧
      (∀ c : Cell, inBounds W H c.1 c.2 = false → out.grid c.1 c.2 = grid c.1 c.2) ∧
      ∀ g1 : Grid, (∀ x y, inBounds W H x y = true → g1 x y = grid x y) →
        routeOf (findShortestPath W H g1 s.1 s.2 targetX targetY) = out.route := by
  obtain ⟨out, hrun, hpost⟩ := findShortestPath_spec W H grid s (targetX, targetY) hs
  have hrun1 : findShortestPath W H grid s.1 s.2 targetX targetY = .ok out := hrun
  have hsent : ∀ c : Cell, inBounds W H c.1 c.2 = true → c ≠ ((-1, -1) : Cell) := by
    intro c hb hc
    rw [hc, inBounds_iff] at hb
    omega
  refine ⟨out, hrun1, ?_, ?_, ?_⟩
  · intro tr htr c hc
    rcases hpost with ⟨p1, _, _⟩ | ⟨tr1, p1, _, _, p4, _, p6, _, _, _⟩
    · rw [p1] at htr
      exact Option.noConfusion htr
    · rw [p1] at htr
      obtain rfl : tr1 = tr := Option.some.inj htr
      have hb : inBounds W H c.1 c.2 = true := by
        rcases mem_trace p4 hc with hc1 | hc1
        · exact isValid_inBounds (p6 c hc1).1
        · rw [hc1]; exact hs
      exact ⟨hb, hsent c hb⟩
  · intro c hc
    rcases hpost with ⟨_, p2, _⟩ | ⟨tr, _, p2, _, _, _, p6, _, _, _⟩
    · rw [p2]
    · rw [p2, paint_apply, if_neg]
      intro hm
      rw [isValid_inBounds (p6 c hm).1] at hc
      exact Bool.noConfusion hc
  · intro g1 hg
    rw [findShortestPath_route_congr (isValid_congr_inBounds hg), hrun1]
    rfl

theorem findShortestPath_in_bounds_witness :
    inBounds 5 5 0 0 = true ∧
      ∃ out, findShortestPath 5 5 grid55 0 0 7 (-3) = .ok out ∧
        (∀ tr, out.route = some tr →
          ∀ c ∈ tr, inBounds 5 5 c.1 c.2 = true ∧ c ≠ ((-1, -1) : Cell)) ∧
        (∀ c : Cell, inBounds 5 5 c.1 c.2 = false → out.grid c.1 c.2 = grid55 c.1 c.2) ∧
        ∀ g1 : Grid, (∀ x y, inBounds 5 5 x y = true → g1 x y = grid55 x y) →
          routeOf (findShortestPath 5 5 g1 0 0 7 (-3)) = out.route :=
  ⟨by decide, findShortestPath_in_bounds 5 5 grid55 (0, 0) 7 (-3) (by decide)⟩

/-! ## Bookkeeping of a run -/

theorem visitCounted_eq (W H : Nat) (grid : Grid) (x y : Int) (p : Search × Tally)
    (d : Int × Int) :
    visitCounted W H grid x y p d = .ok (tallyStep W H grid x y p d) := by
  unfold visitCounted tallyStep visitStep
  by_cases hv : isValid W H grid (x + d.1) (y + d.2) = true
  · have hb := isValid_inBounds hv
    cases hs : p.1.visited (x + d.1) (y + d.2) <;>
      simp [hv, hb, hs, readAt, writeAt, bind, Except.bind, pure, Except.pure]
  · simp [hv, pure, Except.pure]

theorem expandCounted_eq (W H : Nat) (grid : Grid) (x y : Int) (p : Search × Tally) :
    expandCounted W H grid x y p = .ok (dirs.foldl (tallyStep W H grid x y) p) := by
  simp [expandCounted, dirs, List.foldlM, visitCounted_eq, bind, Except.bind, pure, Except.pure]

theorem foldl_tallyStep_fst (W H : Nat) (grid : Grid) (x y : Int) (ds : List (Int × Int)) :
    ∀ p : Search × Tally,
      (ds.foldl (tallyStep W H grid x y) p).1 = ds.foldl (visitStep W H grid x y) p.1 := by
  induction ds with
  | nil => intro p; rfl
  | cons d ds ih =>
    intro p
    rw [List.foldl_cons, List.foldl_cons, ih]
    rfl

theorem tallyStep_counted {W H : Nat} (grid : Grid) (x y : Int) {p : Search × Tally}
    (d : Int × Int) (hc : Counted W H p.1 p.2) :
    Counted W H (tallyStep W H grid x y p d).1 (tallyStep W H grid x y p d).2 := by
  obtain ⟨h1, h2, h3⟩ := hc
  by_cases hnew : isValid W H grid (x + d.1) (y + d.2) = true ∧
      p.1.visited (x + d.1) (y + d.2) = false
  · obtain ⟨hval, hunv⟩ := hnew
    have hstep : tallyStep W H grid x y p d =
        ({ visited := p.1.visited.set (x + d.1) (y + d.2) true
           parent := p.1.parent.set (x + d.1) (y + d.2) (x, y)
           q := p.1.q ++ [(x + d.1, y + d.2)] },
         { p.2 with pushed := p.2.pushed ++ [(x + d.1, y + d.2)] }) := by
      simp [tallyStep, visitStep, hval, hunv]
    rw [hstep]
    have hcard := unvisited_set W H p.1.visited (x + d.1) (y + d.2) (isValid_inBounds hval) hunv
    have hnot : ((x + d.1, y + d.2) : Cell) ∉ p.2.pushed := by
      intro hm
      have := h2 _ hm
      simp only at this
      rw [hunv] at this
      exact Bool.noConfusion this
    refine ⟨?_, ?_, ?_⟩
    · show (p.2.pushed ++ [(x + d.1, y + d.2)]).Nodup
      rw [List.nodup_append]
      refine ⟨h1, List.nodup_singleton _, ?_⟩
      intro a ha hb
      rw [List.mem_singleton.1 hb] at ha
      exact hnot ha
    · intro c hc
      show p.1.visited.set (x + d.1) (y + d.2) true c.1 c.2 = true
      have hsc := Table.set_cell p.1.visited (x + d.1, y + d.2) c true
      simp only at hsc
      rw [hsc]
      by_cases hcn : c = (x + d.1, y + d.2)
      · rw [if_pos hcn]
      · rw [if_neg hcn]
        have hc1 : c ∈ p.2.pushed ++ [(x + d.1, y + d.2)] := hc
        rcases List.mem_append.1 hc1 with hm | hm
        · exact h2 c hm
        · exact absurd (List.mem_singleton.1 hm) hcn
    · show p.2.pops + (unvisited W H (p.1.visited.set (x + d.1) (y + d.2) true)).card +
        (p.1.q ++ [(x + d.1, y + d.2)]).length ≤ W * H
      rw [List.length_append, List.length_singleton]
      omega
  · have hstep : tallyStep W H grid x y p d = p := by
      simp only [tallyStep, visitStep, hnew, if_false]
    rw [hstep]
    exact ⟨h1, h2, h3⟩

theorem foldl_tallyStep_counted {W H : Nat} (grid : Grid) (x y : Int) (ds : List (Int × Int)) :
    ∀ p : Search × Tally, Counted W H p.1 p.2 →
      Counted W H (ds.foldl (tallyStep W H grid x y) p).1
        (ds.foldl (tallyStep W H grid x y) p).2 := by
  induction ds with
  | nil => intro p hc; exact hc
  | cons d ds ih =>
    intro p hc
    rw [List.foldl_cons]
    exact ih _ (tallyStep_counted grid x y d hc)

theorem bfsCounted_spec {W H : Nat} (grid : Grid) (sx sy tx ty : Int) :
    ∀ (fuel : Nat) (st : Search) (tl : Tally), Counted W H st tl →
      ∃ tl1 : Tally, tl1.pushed.Nodup ∧ tl1.pops ≤ W * H ∧
        bfsCounted W H grid sx sy tx ty fuel st tl =
          Except.map (fun o => (o, tl1)) (bfs W H grid sx sy tx ty fuel st) := by
  intro fuel
  induction fuel with
  | zero =>
    intro st tl hc
    exact ⟨tl, hc.1, by have := hc.2.2; omega, rfl⟩
  | succ f ih =>
    intro st tl hc
    obtain ⟨vis, par, q⟩ := st
    cases q with
    | nil => exact ⟨tl, hc.1, by have := hc.2.2; omega, rfl⟩
    | cons h rest =>
      obtain ⟨x, y⟩ := h
      have h3 : tl.pops + (unvisited W H vis).card + (rest.length + 1) ≤ W * H := hc.2.2
      by_cases hcond : x = tx ∧ y = ty
      · refine ⟨{ tl with pops := tl.pops + 1 }, hc.1, ?_, ?_⟩
        · show tl.pops + 1 ≤ W * H
          omega
        · simp only [bfsCounted, bfs, if_pos hcond, bind, Except.bind]
          cases reconstruct W H sx sy par (W * H) grid x y <;> rfl
      · have hc1 : Counted W H (⟨vis, par, rest⟩ : Search)
            ({ tl with pops := tl.pops + 1 } : Tally) := by
          refine ⟨hc.1, hc.2.1, ?_⟩
          show tl.pops + 1 + (unvisited W H vis).card + rest.length ≤ W * H
          omega
        have hc2 := foldl_tallyStep_counted grid x y dirs
          ((⟨vis, par, rest⟩ : Search), ({ tl with pops := tl.pops + 1 } : Tally)) hc1
        obtain ⟨tl1, n1, n2, n3⟩ := ih _ _ hc2
        refine ⟨tl1, n1, n2, ?_⟩
        simp only [bfsCounted, bfs, if_neg hcond, expandCounted_eq, expand_eq, bind, Except.bind]
        rw [n3, foldl_tallyStep_fst]

theorem findShortestPathCounted_spec (W H : Nat) (grid : Grid) (s t : Cell)
    (hs : inBounds W H s.1 s.2 = true) :
    ∃ tl1 : Tally, tl1.pushed.Nodup ∧ tl1.pops ≤ W * H ∧
      findShortestPathCounted W H grid s.1 s.2 t.1 t.2 =
        Except.map (fun o => (o, tl1)) (findShortestPath W H grid s.1 s.2 t.1 t.2) := by
  have h1 := unvisited_set W H (fun _ _ => false) s.1 s.2 hs rfl
  have h2 := unvisited_init W H
  have hc : Counted W H ⟨Table.set (fun _ _ => false) s.1 s.2 true, fun _ _ => (-1, -1), [s]⟩
      ⟨[s], 0⟩ := by
    refine ⟨List.nodup_singleton _, ?_, ?_⟩
    · intro c hc
      rw [List.mem_singleton.1 hc]
      show Table.set (fun _ _ => false) s.1 s.2 true s.1 s.2 = true
      exact Table.set_same _ _ _ _
    · show 0 + (unvisited W H (Table.set (fun _ _ => false) s.1 s.2 true)).card + [s].length ≤ _
      rw [List.length_singleton]
      omega
  obtain ⟨tl1, n1, n2, n3⟩ := bfsCounted_spec grid s.1 s.2 t.1 t.2 (W * H + 1) _ _ hc
  refine ⟨tl1, n1, n2, ?_⟩
  simp only [findShortestPathCounted, findShortestPath, writeAt, hs, if_true, bind, Except.bind]
  exact n3

/-- C17: on every `W × H` grid, for an in-bounds start `s`, one run of
`findShortestPath` finishes (neither loop runs out of its `W * H` budget);
no cell is pushed onto the queue twice, the main loop pops at most `W * H`
cells, and the walk from the target back to the start follows at most `W * H`
parent links. -/
theorem findShortestPath_bounded (W H : Nat) (grid : Grid) (s t : Cell)
    (hs : inBounds W H s.1 s.2 = true) :
    ∃ out tl, findShortestPathCounted W H grid s.1 s.2 t.1 t.2 = .ok (out, tl) ∧
      findShortestPath W H grid s.1 s.2 t.1 t.2 = .ok out ∧
      tl.pushed.Nodup ∧ tl.pops ≤ W * H ∧
      ∀ tr, out.route = some tr → hops tr ≤ W * H := by
  obtain ⟨out, hrun, hpost⟩ := findShortestPath_spec W H grid s t hs
  obtain ⟨tl, n1, n2, n3⟩ := findShortestPathCounted_spec W H grid s t hs
  rw [hrun] at n3
  refine ⟨out, tl, n3, hrun, n1, n2, ?_⟩
  intro tr htr
  rcases hpost with ⟨p1, _, _⟩ | ⟨tr1, p1, _, _, _, _, _, _, _, p9⟩
  · rw [p1] at htr
    exact Option.noConfusion htr
  · rw [p1] at htr
    obtain rfl : tr1 = tr := Option.some.inj htr
    unfold hops
    omega

theorem findShortestPath_bounded_witness :
    inBounds 5 5 0 0 = true ∧
      ∃ out tl, findShortestPathCounted 5 5 grid55 0 0 4 0 = .ok (out, tl) ∧
        findShortestPath 5 5 grid55 0 0 4 0 = .ok out ∧
        tl.pushed.Nodup ∧ tl.pops ≤ 5 * 5 ∧
        ∀ tr, out.route = some tr → hops tr ≤ 5 * 5 :=
  ⟨by decide, findShortestPath_bounded 5 5 grid55 (0, 0) (4, 0) (by decide)⟩

/-! ## The event loop -/

theorem leftClick_eq (W H : Nat) (a : App) (mouseX mouseY : Int) :
    handleEvent W H a (.MOUSEBUTTONDOWN .LEFT mouseX mouseY) =
      .ok (leftClicked W H a (gridCoord mouseX) (gridCoord mouseY)) := by
  unfold handleEvent leftClicked
  by_cases hb : inBounds W H (gridCoord mouseX) (gridCoord mouseY) = true
  · have hb1 := inBounds_iff.1 hb
    have hb2 : gridCoord mouseX ≥ 0 ∧ gridCoord mouseX < (W : Int) ∧ gridCoord mouseY ≥ 0 ∧
        gridCoord mouseY < (H : Int) := ⟨hb1.1, hb1.2.1, hb1.2.2.1, hb1.2.2.2⟩
    simp only [hb2, hb, and_self, if_true]
    split_ifs <;> rfl
  · have hb2 : ¬ (gridCoord mouseX ≥ 0 ∧ gridCoord mouseX < (W : Int) ∧ gridCoord mouseY ≥ 0 ∧
        gridCoord mouseY < (H : Int)) := fun h => hb (inBounds_iff.2 ⟨h.1, h.2.1, h.2.2.1, h.2.2.2⟩)
    simp only [hb2, hb, if_false]
    rfl

theorem rightClick_eq (W H : Nat) (a : App) (mouseX mouseY : Int) :
    handleEvent W H a (.MOUSEBUTTONDOWN .RIGHT mouseX mouseY) =
      .ok (rightClicked W H a (gridCoord mouseX) (gridCoord mouseY)) := by
  unfold handleEvent rightClicked
  by_cases hb : inBounds W H (gridCoord mouseX) (gridCoord mouseY) = true
  · have hb1 := inBounds_iff.1 hb
    have hb2 : gridCoord mouseX ≥ 0 ∧ gridCoord mouseX < (W : Int) ∧ gridCoord mouseY ≥ 0 ∧
        gridCoord mouseY < (H : Int) := ⟨hb1.1, hb1.2.1, hb1.2.2.1, hb1.2.2.2⟩
    simp only [hb2, hb, and_self, if_true, true_and]
    split_ifs <;> rfl
  · have hb2 : ¬ (gridCoord mouseX ≥ 0 ∧ gridCoord mouseX < (W : Int) ∧ gridCoord mouseY ≥ 0 ∧
        gridCoord mouseY < (H : Int)) := fun h => hb (inBounds_iff.2 ⟨h.1, h.2.1, h.2.2.1, h.2.2.2⟩)
    simp only [hb2, hb, if_false, false_and]
    rfl

theorem space_eq_search (W H : Nat) (a : App) (h : invokesSearch a) (out : Outcome)
    (hrun : findShortestPath W H a.grid a.startX a.startY a.targetX a.targetY = .ok out) :
    handleEvent W H a (.KEYDOWN true) = .ok { a with grid := out.grid } := by
  unfold invokesSearch at h
  simp only [handleEvent, h, and_self, if_true, ne_eq, not_false_eq_true, hrun, bind, Except.bind]
  rfl

theorem key_eq_skip (W H : Nat) (a : App) (space : Bool)
    (h : ¬ (space = true ∧ invokesSearch a)) :
    handleEvent W H a (.KEYDOWN space) = .ok a := by
  unfold invokesSearch at h
  simp only [handleEvent, h, if_false]
  rfl

theorem sound_initial (W H : Nat) : Sound W H initial := by
  constructor
  · exact Or.inl ⟨rfl, rfl⟩
  · exact Or.inl ⟨rfl, rfl⟩
  · intro c h
    exact CellState.noConfusion h
  · intro c h
    exact CellState.noConfusion h

theorem Sound.no_start {W H : Nat} {a : App} (hs : Sound W H a)
    (hu : a.startX = -1 ∧ a.startY = -1) (c : Cell) : a.grid c.1 c.2 ≠ START := by
  intro h
  obtain ⟨h1, h2⟩ := hs.start_cell c h
  rw [h1, inBounds_iff] at h2
  simp only at h2
  omega

theorem Sound.no_target {W H : Nat} {a : App} (hs : Sound W H a)
    (hu : a.targetX = -1 ∧ a.targetY = -1) (c : Cell) : a.grid c.1 c.2 ≠ TARGET := by
  intro h
  obtain ⟨h1, h2⟩ := hs.target_cell c h
  rw [h1, inBounds_iff] at h2
  simp only at h2
  omega

theorem Sound.of_grid {W H : Nat} {a : App} (hs : Sound W H a) (g : Grid)
    (h1 : ∀ c : Cell, g c.1 c.2 = START → a.grid c.1 c.2 = START)
    (h2 : ∀ c : Cell, g c.1 c.2 = TARGET → a.grid c.1 c.2 = TARGET) :
    Sound W H { a with grid := g } :=
  ⟨hs.start_ok, hs.target_ok, fun c h => hs.start_cell c (h1 c h),
    fun c h => hs.target_cell c (h2 c h)⟩

theorem sound_leftClicked {W H : Nat} {a : App} (hs : Sound W H a) (x y : Int) :
    Sound W H (leftClicked W H a x y) := by
  unfold leftClicked
  have key : ∀ v : CellState, v ≠ START → v ≠ TARGET → Sound W H { a with grid := a.grid.set x y v } := by
    intro v hv1 hv2
    refine hs.of_grid _ ?_ ?_
    · intro c h
      rw [Table.set_cell a.grid (x, y) c v] at h
      by_cases hc : c = (x, y)
      · rw [if_pos hc] at h
        exact absurd h hv1
      · rwa [if_neg hc] at h
    · intro c h
      rw [Table.set_cell a.grid (x, y) c v] at h
      by_cases hc : c = (x, y)
      · rw [if_pos hc] at h
        exact absurd h hv2
      · rwa [if_neg hc] at h
  split_ifs
  · exact key WALL (by decide) (by decide)
  · exact key EMPTY (by decide) (by decide)
  · exact hs
  · exact hs

theorem sound_rightClicked {W H : Nat} {a : App} (hs : Sound W H a) (x y : Int) :
    Sound W H (rightClicked W H a x y) := by
  unfold rightClicked
  by_cases hb : inBounds W H x y = true ∧ a.grid x y ≠ WALL
  · rw [if_pos hb]
    by_cases hu : a.startX = -1 ∧ a.startY = -1
    · rw [if_pos hu]
      refine ⟨Or.inr hb.1, hs.target_ok, ?_, ?_⟩
      · intro c h
        have h' : a.grid.set x y START c.1 c.2 = START := h
        rw [Table.set_cell a.grid (x, y) c START] at h'
        by_cases hc : c = (x, y)
        · rw [hc]
          exact ⟨rfl, hb.1⟩
        · rw [if_neg hc] at h'
          exact absurd h' (hs.no_start hu c)
      · intro c h
        have h' : a.grid.set x y START c.1 c.2 = TARGET := h
        rw [Table.set_cell a.grid (x, y) c START] at h'
        by_cases hc : c = (x, y)
        · rw [if_pos hc] at h'
          exact CellState.noConfusion h'
        · rw [if_neg hc] at h'
          exact hs.target_cell c h'
    · rw [if_neg hu]
      by_cases hv : a.targetX = -1 ∧ a.targetY = -1
      · rw [if_pos hv]
        refine ⟨hs.start_ok, Or.inr hb.1, ?_, ?_⟩
        · intro c h
          have h' : a.grid.set x y TARGET c.1 c.2 = START := h
          rw [Table.set_cell a.grid (x, y) c TARGET] at h'
          by_cases hc : c = (x, y)
          · rw [if_pos hc] at h'
            exact CellState.noConfusion h'
          · rw [if_neg hc] at h'
            exact hs.start_cell c h'
        · intro c h
          have h' : a.grid.set x y TARGET c.1 c.2 = TARGET := h
          rw [Table.set_cell a.grid (x, y) c TARGET] at h'
          by_cases hc : c = (x, y)
          · rw [hc]
            exact ⟨rfl, hb.1⟩
          · rw [if_neg hc] at h'
            exact absurd h' (hs.no_target hv c)
      · rw [if_neg hv]
        exact hs
  · rw [if_neg hb]
    exact hs

theorem rightClicked_start {W H : Nat} (a : App) (x y : Int)
    (h : ¬ (a.startX = -1 ∧ a.startY = -1)) :
    (rightClicked W H a x y).startX = a.startX ∧ (rightClicked W H a x y).startY = a.startY := by
  unfold rightClicked
  rw [if_neg h]
  split_ifs <;> exact ⟨rfl, rfl⟩

theorem rightClicked_target {W H : Nat} (a : App) (x y : Int)
    (h : ¬ (a.targetX = -1 ∧ a.targetY = -1)) :
    (rightClicked W H a x y).targetX = a.targetX ∧
      (rightClicked W H a x y).targetY = a.targetY := by
  unfold rightClicked
  rw [if_neg h]
  split_ifs <;> exact ⟨rfl, rfl⟩

theorem leftClicked_coords {W H : Nat} (a : App) (x y : Int) :
    (leftClicked W H a x y).startX = a.startX ∧ (leftClicked W H a x y).startY = a.startY ∧
      (leftClicked W H a x y).targetX = a.targetX ∧
      (leftClicked W H a x y).targetY = a.targetY := by
  unfold leftClicked
  split_ifs <;> exact ⟨rfl, rfl, rfl, rfl⟩

theorem search_keeps_state (W H : Nat) (grid : Grid) (s t : Cell)
    (hs : inBounds W H s.1 s.2 = true) :
    ∃ out, findShortestPath W H grid s.1 s.2 t.1 t.2 = .ok out ∧
      (∀ c : Cell, out.grid c.1 c.2 ≠ PATH → out.grid c.1 c.2 = grid c.1 c.2) ∧
      out.grid s.1 s.2 = grid s.1 s.2 := by
  obtain ⟨out, hrun, hpost⟩ := findShortestPath_spec W H grid s t hs
  refine ⟨out, hrun, ?_, ?_⟩
  · intro c hne
    rcases hpost with ⟨_, p2, _⟩ | ⟨tr, _, p2, _, _, _, _, _, _, _⟩
    · rw [p2]
    · rw [p2, paint_apply] at hne ⊢
      by_cases hm : c ∈ tr.dropLast
      · rw [if_pos hm] at hne
        exact absurd rfl hne
      · rw [if_neg hm]
  · rcases hpost with ⟨_, p2, _⟩ | ⟨tr, _, p2, _, _, _, p6, _, _, _⟩
    · rw [p2]
    · rw [p2, paint_apply, if_neg]
      exact fun hm => (p6 s hm).2 rfl

/-- One event from a sound state: the event is handled without a fault, the
state stays sound, and coordinates that were set stay as they are. -/
theorem sound_step {W H : Nat} {a : App} (hs : Sound W H a) (e : Event) :
    ∃ a1, handleEvent W H a e = .ok a1 ∧ Sound W H a1 ∧
      (startSet a → a1.startX = a.startX ∧ a1.startY = a.startY) ∧
      (targetSet a → a1.targetX = a.targetX ∧ a1.targetY = a.targetY) := by
  cases e with
  | MOUSEBUTTONDOWN button mouseX mouseY =>
    cases button with
    | LEFT =>
      have hc := leftClicked_coords (W := W) (H := H) a (gridCoord mouseX) (gridCoord mouseY)
      exact ⟨_, leftClick_eq W H a mouseX mouseY, sound_leftClicked hs _ _,
        fun _ => ⟨hc.1, hc.2.1⟩, fun _ => ⟨hc.2.2.1, hc.2.2.2⟩⟩
    | RIGHT =>
      exact ⟨_, rightClick_eq W H a mouseX mouseY, sound_rightClicked hs _ _,
        fun h => rightClicked_start a _ _ h, fun h => rightClicked_target a _ _ h⟩
    | OTHER => exact ⟨a, rfl, hs, fun _ => ⟨rfl, rfl⟩, fun _ => ⟨rfl, rfl⟩⟩
  | KEYDOWN space =>
    by_cases h : space = true ∧ invokesSearch a
    · obtain ⟨hsp, hi⟩ := h
      have hb : inBounds W H a.startX a.startY = true := by
        rcases hs.start_ok with hu | hb
        · exact absurd hu.1 hi.1
        · exact hb
      obtain ⟨out, hrun, hkeep, _⟩ :=
        search_keeps_state W H a.grid (a.startX, a.startY) (a.targetX, a.targetY) hb
      refine ⟨{ a with grid := out.grid }, ?_, ?_, fun _ => ⟨rfl, rfl⟩, fun _ => ⟨rfl, rfl⟩⟩
      · rw [hsp]
        exact space_eq_search W H a hi out hrun
      · refine hs.of_grid _ ?_ ?_
        · intro c hc
          rw [← hkeep c (by rw [hc]; decide)]
          exact hc
        · intro c hc
          rw [← hkeep c (by rw [hc]; decide)]
          exact hc
    · exact ⟨a, key_eq_skip W H a space h, hs, fun _ => ⟨rfl, rfl⟩, fun _ => ⟨rfl, rfl⟩⟩
  | OTHER => exact ⟨a, rfl, hs, fun _ => ⟨rfl, rfl⟩, fun _ => ⟨rfl, rfl⟩⟩

theorem reachable_sound {W H : Nat} {a : App} (hr : Reachable W H a) : Sound W H a := by
  induction hr with
  | init => exact sound_initial W H
  | step e _ hstep ih =>
    obtain ⟨a2, h2, hs2, _, _⟩ := sound_step ih e
    rw [hstep] at h2
    obtain rfl := Except.ok.inj h2
    exact hs2

theorem reachable_handleEvents {W H : Nat} (events : List Event) :
    ∀ a a1 : App, Reachable W H a → handleEvents W H a events = .ok a1 → Reachable W H a1 := by
  induction events with
  | nil =>
    intro a a1 hr h
    have h1 : (Except.ok a : Except Fault App) = .ok a1 := h
    rw [← Except.ok.inj h1]
    exact hr
  | cons e events ih =>
    intro a a1 hr h
    unfold handleEvents at h
    rw [List.foldlM_cons] at h
    cases hstep : handleEvent W H a e with
    | error err =>
      rw [hstep] at h
      exact Except.noConfusion h
    | ok a2 =>
      rw [hstep] at h
      exact ih a2 a1 (Reachable.step e hr hstep) h

theorem sound_run {W H : Nat} (events : List Event) :
    ∀ a : App, Sound W H a →
      ∃ a1, handleEvents W H a events = .ok a1 ∧ Sound W H a1 ∧
        (startSet a → a1.startX = a.startX ∧ a1.startY = a.startY) ∧
        (targetSet a → a1.targetX = a.targetX ∧ a1.targetY = a.targetY) := by
  induction events with
  | nil =>
    intro a hs
    exact ⟨a, rfl, hs, fun _ => ⟨rfl, rfl⟩, fun _ => ⟨rfl, rfl⟩⟩
  | cons e events ih =>
    intro a hs
    obtain ⟨a1, h1, hs1, k1, k2⟩ := sound_step hs e
    obtain ⟨a2, h2, hs2, m1, m2⟩ := ih a1 hs1
    refine ⟨a2, ?_, hs2, ?_, ?_⟩
    · unfold handleEvents at h2 ⊢
      rw [List.foldlM_cons, h1]
      exact h2
    · intro hset
      obtain ⟨e1, e2⟩ := k1 hset
      have hset1 : startSet a1 := by
        unfold startSet at hset ⊢
        rw [e1, e2]
        exact hset
      obtain ⟨f1, f2⟩ := m1 hset1
      exact ⟨f1.trans e1, f2.trans e2⟩
    · intro hset
      obtain ⟨e1, e2⟩ := k2 hset
      have hset1 : targetSet a1 := by
        unfold targetSet at hset ⊢
        rw [e1, e2]
        exact hset
      obtain ⟨f1, f2⟩ := m2 hset1
      exact ⟨f1.trans e1, f2.trans e2⟩

theorem leftClicked_twice (W H : Nat) (a : App) (x y : Int) :
    leftClicked W H (leftClicked W H a x y) x y = a := by
  obtain ⟨g, sx, sy, tx, ty⟩ := a
  by_cases hb : inBounds W H x y = true
  · by_cases he : g x y = EMPTY
    · have h1 : leftClicked W H ⟨g, sx, sy, tx, ty⟩ x y = ⟨g.set x y WALL, sx, sy, tx, ty⟩ := by
        simp [leftClicked, hb, he]
      rw [h1]
      have h2 : g.set x y WALL x y = WALL := Table.set_same _ _ _ _
      have h3 : (g.set x y WALL).set x y EMPTY = g := by
        funext p q
        unfold Table.set
        by_cases hpq : p = x ∧ q = y
        · rw [if_pos hpq, hpq.1, hpq.2, he]
        · rw [if_neg hpq, if_neg hpq]
      simp [leftClicked, hb, h2, h3]
    · by_cases hw : g x y = WALL
      · have h1 : leftClicked W H ⟨g, sx, sy, tx, ty⟩ x y = ⟨g.set x y EMPTY, sx, sy, tx, ty⟩ := by
          simp [leftClicked, hb, hw]
        rw [h1]
        have h2 : g.set x y EMPTY x y = EMPTY := Table.set_same _ _ _ _
        have h3 : (g.set x y EMPTY).set x y WALL = g := by
          funext p q
          unfold Table.set
          by_cases hpq : p = x ∧ q = y
          · rw [if_pos hpq, hpq.1, hpq.2, hw]
          · rw [if_neg hpq, if_neg hpq]
        simp [leftClicked, hb, h2, h3]
      · have h1 : leftClicked W H ⟨g, sx, sy, tx, ty⟩ x y = ⟨g, sx, sy, tx, ty⟩ := by
          simp [leftClicked, hb, he, hw]
        rw [h1, h1]
  · have h1 : ∀ b : App, leftClicked W H b x y = b := by
      intro b
      simp [leftClicked, hb]
    rw [h1, h1]

theorem leftClicked_other (W H : Nat) (a : App) (x y : Int) (c : Cell) (hc : c ≠ (x, y)) :
    (leftClicked W H a x y).grid c.1 c.2 = a.grid c.1 c.2 := by
  unfold leftClicked
  split_ifs
  · show a.grid.set x y WALL c.1 c.2 = _
    rw [Table.set_cell a.grid (x, y) c WALL, if_neg hc]
  · show a.grid.set x y EMPTY c.1 c.2 = _
    rw [Table.set_cell a.grid (x, y) c EMPTY, if_neg hc]
  · rfl
  · rfl

theorem leftClicked_keeps (W H : Nat) (a : App) (x y : Int) (c : Cell)
    (h : a.grid c.1 c.2 = START ∨ a.grid c.1 c.2 = TARGET) :
    (leftClicked W H a x y).grid c.1 c.2 = a.grid c.1 c.2 := by
  by_cases hc : c = (x, y)
  · have hx : a.grid x y = START ∨ a.grid x y = TARGET := by
      rw [hc] at h
      exact h
    have h1 : ¬ a.grid x y = EMPTY := by
      rcases hx with hx | hx <;> rw [hx] <;> decide
    have h2 : ¬ a.grid x y = WALL := by
      rcases hx with hx | hx <;> rw [hx] <;> decide
    unfold leftClicked
    split_ifs <;> rfl
  · exact leftClicked_other W H a x y c hc

theorem startKept_rightClicked {W H : Nat} {a : App} (hk : StartKept a) (x y : Int) :
    StartKept (rightClicked W H a x y) := by
  unfold rightClicked
  by_cases hb : inBounds W H x y = true ∧ a.grid x y ≠ WALL
  · rw [if_pos hb]
    have hx := inBounds_iff.1 hb.1
    by_cases hu : a.startX = -1 ∧ a.startY = -1
    · rw [if_pos hu]
      have htu : a.targetX = -1 ∧ a.targetY = -1 := by
        have := hk.2 (fun hset => hset hu)
        unfold targetSet at this
        exact not_not.1 this
      constructor
      · intro _
        refine Or.inl ⟨Table.set_same _ _ _ _, ?_⟩
        show ¬ (x = a.targetX ∧ y = a.targetY)
        intro hxy
        have := hxy.1.trans htu.1
        omega
      · intro hns
        exfalso
        apply hns
        show ¬ (x = -1 ∧ y = -1)
        intro hxy
        have := hxy.1
        omega
    · rw [if_neg hu]
      by_cases hv : a.targetX = -1 ∧ a.targetY = -1
      · rw [if_pos hv]
        have hst : a.grid a.startX a.startY = START := by
          rcases hk.1 hu with h1 | ⟨e1, e2, _⟩
          · exact h1.1
          · exact absurd ⟨e1.trans hv.1, e2.trans hv.2⟩ hu
        constructor
        · intro _
          show (a.grid.set x y TARGET a.startX a.startY = START ∧
              ¬ (a.startX = x ∧ a.startY = y)) ∨
            (a.startX = x ∧ a.startY = y ∧ a.grid.set x y TARGET a.startX a.startY = TARGET)
          by_cases hxy : a.startX = x ∧ a.startY = y
          · refine Or.inr ⟨hxy.1, hxy.2, ?_⟩
            rw [hxy.1, hxy.2]
            exact Table.set_same _ _ _ _
          · refine Or.inl ⟨?_, hxy⟩
            rw [Table.set_other _ _ _ _ _ _ hxy]
            exact hst
        · intro hns
          exact absurd hu hns
      · rw [if_neg hv]
        exact hk
  · rw [if_neg hb]
    exact hk

theorem startKept_of_grid {a : App} (hk : StartKept a) (g : Grid)
    (h : g a.startX a.startY = a.grid a.startX a.startY) :
    StartKept { a with grid := g } := by
  constructor
  · intro hset
    show (g a.startX a.startY = START ∧ ¬ (a.startX = a.targetX ∧ a.startY = a.targetY)) ∨
      (a.startX = a.targetX ∧ a.startY = a.targetY ∧ g a.startX a.startY = TARGET)
    rw [h]
    exact hk.1 hset
  · exact hk.2

theorem startKept_leftClicked {W H : Nat} {a : App} (hk : StartKept a) (x y : Int) :
    StartKept (leftClicked W H a x y) := by
  by_cases hset : startSet a
  · have hcell : a.grid a.startX a.startY = START ∨ a.grid a.startX a.startY = TARGET :=
      (hk.1 hset).imp (fun h => h.1) (fun h => h.2.2)
    have hkeep : (leftClicked W H a x y).grid a.startX a.startY = a.grid a.startX a.startY :=
      leftClicked_keeps W H a x y (a.startX, a.startY) hcell
    have hform : leftClicked W H a x y = { a with grid := (leftClicked W H a x y).grid } := by
      unfold leftClicked
      split_ifs <;> rfl
    rw [hform]
    exact startKept_of_grid hk _ hkeep
  · obtain ⟨c1, c2, c3, c4⟩ := leftClicked_coords (W := W) (H := H) a x y
    constructor
    · intro hset1
      exfalso
      apply hset
      unfold startSet at hset1 ⊢
      rw [c1, c2] at hset1
      exact hset1
    · intro _
      have := hk.2 hset
      unfold targetSet at this ⊢
      rw [c3, c4]
      exact this

theorem startKept_step {W H : Nat} {a a1 : App} (hs : Sound W H a) (hk : StartKept a)
    (e : Event) (h : handleEvent W H a e = .ok a1) : StartKept a1 := by
  cases e with
  | MOUSEBUTTONDOWN button mouseX mouseY =>
    cases button with
    | LEFT =>
      rw [leftClick_eq] at h
      obtain rfl := Except.ok.inj h
      exact startKept_leftClicked hk _ _
    | RIGHT =>
      rw [rightClick_eq] at h
      obtain rfl := Except.ok.inj h
      exact startKept_rightClicked hk _ _
    | OTHER =>
      have h1 : (Except.ok a : Except Fault App) = .ok a1 := h
      obtain rfl := Except.ok.inj h1
      exact hk
  | KEYDOWN space =>
    by_cases hi : space = true ∧ invokesSearch a
    · obtain ⟨hsp, hinv⟩ := hi
      have hb : inBounds W H a.startX a.startY = true := by
        rcases hs.start_ok with hu | hb
        · exact absurd hu.1 hinv.1
        · exact hb
      obtain ⟨out, hrun, _, hstart⟩ :=
        search_keeps_state W H a.grid (a.startX, a.startY) (a.targetX, a.targetY) hb
      rw [hsp, space_eq_search W H a hinv out hrun] at h
      obtain rfl := Except.ok.inj h
      exact startKept_of_grid hk _ hstart
    · rw [key_eq_skip W H a space hi] at h
      obtain rfl := Except.ok.inj h
      exact hk
  | OTHER =>
    have h1 : (Except.ok a : Except Fault App) = .ok a1 := h
    obtain rfl := Except.ok.inj h1
    exact hk

theorem reachable_startKept {W H : Nat} {a : App} (hr : Reachable W H a) : StartKept a := by
  induction hr with
  | init =>
    constructor
    · intro hset
      exact absurd ⟨rfl, rfl⟩ hset
    · intro _ htset
      exact htset ⟨rfl, rfl⟩
  | step e hprev hstep ih => exact startKept_step (reachable_sound hprev) ih e hstep

/-! ## The claims on the event loop -/

/-- C14: in every state and for every left click, with `(x, y)` the cell the
click lands in: the click is handled without a fault; if `(x, y)` is in bounds
and Empty it becomes a Wall; if it is in bounds and a Wall it becomes Empty;
if it holds Start or Target, or is out of bounds, the grid is unchanged; every
other cell keeps its state and the stored coordinates stay; and a second left
click that lands in the same cell restores the original state. -/
theorem left_click_toggle (W H : Nat) (a : App) (mouseX mouseY : Int) :
    ∃ a1, handleEvent W H a (.MOUSEBUTTONDOWN .LEFT mouseX mouseY) = .ok a1 ∧
      (inBounds W H (gridCoord mouseX) (gridCoord mouseY) = true ∧
          a.grid (gridCoord mouseX) (gridCoord mouseY) = EMPTY →
        a1.grid (gridCoord mouseX) (gridCoord mouseY) = WALL) ∧
      (inBounds W H (gridCoord mouseX) (gridCoord mouseY) = true ∧
          a.grid (gridCoord mouseX) (gridCoord mouseY) = WALL →
        a1.grid (gridCoord mouseX) (gridCoord mouseY) = EMPTY) ∧
      (a.grid (gridCoord mouseX) (gridCoord mouseY) = START ∨
          a.grid (gridCoord mouseX) (gridCoord mouseY) = TARGET ∨
          inBounds W H (gridCoord mouseX) (gridCoord mouseY) = false →
        a1.grid = a.grid) ∧
      (∀ c : Cell, c ≠ (gridCoord mouseX, gridCoord mouseY) →
        a1.grid c.1 c.2 = a.grid c.1 c.2) ∧
      (a1.startX = a.startX ∧ a1.startY = a.startY ∧ a1.targetX = a.targetX ∧
        a1.targetY = a.targetY) ∧
      ∀ mouseX2 mouseY2 : Int, gridCoord mouseX2 = gridCoord mouseX →
        gridCoord mouseY2 = gridCoord mouseY →
        handleEvent W H a1 (.MOUSEBUTTONDOWN .LEFT mouseX2 mouseY2) = .ok a := by
  refine ⟨_, leftClick_eq W H a mouseX mouseY, ?_, ?_, ?_, ?_, leftClicked_coords a _ _, ?_⟩
  · rintro ⟨hb, he⟩
    simp only [leftClicked, hb, he, if_true]
    exact Table.set_same _ _ _ _
  · rintro ⟨hb, hw⟩
    have hne : ¬ a.grid (gridCoord mouseX) (gridCoord mouseY) = EMPTY := by
      rw [hw]; decide
    simp only [leftClicked, hb, hw, hne, if_true, if_false]
    exact Table.set_same _ _ _ _
  · rintro (h | h | h)
    · have h1 : ¬ a.grid (gridCoord mouseX) (gridCoord mouseY) = EMPTY := by rw [h]; decide
      have h2 : ¬ a.grid (gridCoord mouseX) (gridCoord mouseY) = WALL := by rw [h]; decide
      unfold leftClicked
      split_ifs <;> rfl
    · have h1 : ¬ a.grid (gridCoord mouseX) (gridCoord mouseY) = EMPTY := by rw [h]; decide
      have h2 : ¬ a.grid (gridCoord mouseX) (gridCoord mouseY) = WALL := by rw [h]; decide
      unfold leftClicked
      split_ifs <;> rfl
    · have h1 : ¬ inBounds W H (gridCoord mouseX) (gridCoord mouseY) = true := by rw [h]; decide
      unfold leftClicked
      rw [if_neg h1]
  · exact fun c hc => leftClicked_other W H a _ _ c hc
  · intro mouseX2 mouseY2 hx hy
    rw [leftClick_eq, hx, hy, leftClicked_twice]

theorem left_click_toggle_witness :
    inBounds GRID_WIDTH GRID_HEIGHT (gridCoord 45) (gridCoord 5) = true ∧
      startPlaced.grid (gridCoord 45) (gridCoord 5) = EMPTY ∧
      ∃ a1, handleEvent GRID_WIDTH GRID_HEIGHT startPlaced (.MOUSEBUTTONDOWN .LEFT 45 5) =
          .ok a1 ∧
        (inBounds GRID_WIDTH GRID_HEIGHT (gridCoord 45) (gridCoord 5) = true ∧
            startPlaced.grid (gridCoord 45) (gridCoord 5) = EMPTY →
          a1.grid (gridCoord 45) (gridCoord 5) = WALL) ∧
        (inBounds GRID_WIDTH GRID_HEIGHT (gridCoord 45) (gridCoord 5) = true ∧
            startPlaced.grid (gridCoord 45) (gridCoord 5) = WALL →
          a1.grid (gridCoord 45) (gridCoord 5) = EMPTY) ∧
        (startPlaced.grid (gridCoord 45) (gridCoord 5) = START ∨
            startPlaced.grid (gridCoord 45) (gridCoord 5) = TARGET ∨
            inBounds GRID_WIDTH GRID_HEIGHT (gridCoord 45) (gridCoord 5) = false →
          a1.grid = startPlaced.grid) ∧
        (∀ c : Cell, c ≠ (gridCoord 45, gridCoord 5) →
          a1.grid c.1 c.2 = startPlaced.grid c.1 c.2) ∧
        (a1.startX = startPlaced.startX ∧ a1.startY = startPlaced.startY ∧
          a1.targetX = startPlaced.targetX ∧ a1.targetY = startPlaced.targetY) ∧
        ∀ mouseX2 mouseY2 : Int, gridCoord mouseX2 = gridCoord 45 →
          gridCoord mouseY2 = gridCoord 5 →
          handleEvent GRID_WIDTH GRID_HEIGHT a1 (.MOUSEBUTTONDOWN .LEFT mouseX2 mouseY2) =
            .ok startPlaced :=
  ⟨by decide, by decide, left_click_toggle GRID_WIDTH GRID_HEIGHT startPlaced 45 5⟩

theorem rightClicked_sets_start {W H : Nat} (a : App) (x y : Int)
    (h : ¬ startSet a ∧ inBounds W H x y = true ∧ a.grid x y ≠ WALL) :
    rightClicked W H a x y = { a with grid := a.grid.set x y START, startX := x, startY := y } := by
  obtain ⟨h1, h2, h3⟩ := h
  have hu : a.startX = -1 ∧ a.startY = -1 := by
    unfold startSet at h1
    exact not_not.1 h1
  unfold rightClicked
  rw [if_pos ⟨h2, h3⟩, if_pos hu]

theorem rightClicked_no_new_start {W H : Nat} (a : App) (x y : Int)
    (h : ¬ (¬ startSet a ∧ inBounds W H x y = true ∧ a.grid x y ≠ WALL)) :
    (rightClicked W H a x y).startX = a.startX ∧ (rightClicked W H a x y).startY = a.startY ∧
      ∀ c : Cell, (rightClicked W H a x y).grid c.1 c.2 = START → a.grid c.1 c.2 = START := by
  by_cases hb : inBounds W H x y = true ∧ a.grid x y ≠ WALL
  · have hset : ¬ (a.startX = -1 ∧ a.startY = -1) := fun hu =>
      h ⟨fun hs => hs hu, hb.1, hb.2⟩
    obtain ⟨e1, e2⟩ := rightClicked_start (W := W) (H := H) a x y hset
    refine ⟨e1, e2, ?_⟩
    intro c hc
    unfold rightClicked at hc
    rw [if_pos hb, if_neg hset] at hc
    by_cases hv : a.targetX = -1 ∧ a.targetY = -1
    · rw [if_pos hv] at hc
      have hc1 : a.grid.set x y TARGET c.1 c.2 = START := hc
      rw [Table.set_cell a.grid (x, y) c TARGET] at hc1
      by_cases hcx : c = (x, y)
      · rw [if_pos hcx] at hc1
        exact CellState.noConfusion hc1
      · rwa [if_neg hcx] at hc1
    · rw [if_neg hv] at hc
      exact hc
  · have h1 : rightClicked W H a x y = a := by
      unfold rightClicked
      rw [if_neg hb]
    rw [h1]
    exact ⟨rfl, rfl, fun _ hc => hc⟩

/-- C15: in every state of the event loop and for every right click, with
`(x, y)` the cell the click lands in: when no Start has been set, `(x, y)` is
in bounds and `(x, y)` is not a Wall, the click puts `START` at `(x, y)` and
stores `(x, y)` as the start; in every other case the stored start and the
cells in state `START` stay as they are; a right click on a Wall cell changes
nothing at all; and whatever events follow, they are handled without a fault
and a Start (Target) that has been set keeps its stored coordinates. -/
theorem right_click_rules (W H : Nat) (a : App) (mouseX mouseY : Int) (later : List Event)
    (hr : Reachable W H a) :
    ∃ a1 a2, handleEvent W H a (.MOUSEBUTTONDOWN .RIGHT mouseX mouseY) = .ok a1 ∧
      handleEvents W H a later = .ok a2 ∧
      (¬ startSet a ∧ inBounds W H (gridCoord mouseX) (gridCoord mouseY) = true ∧
          a.grid (gridCoord mouseX) (gridCoord mouseY) ≠ WALL →
        a1.grid = a.grid.set (gridCoord mouseX) (gridCoord mouseY) START ∧
          a1.startX = gridCoord mouseX ∧ a1.startY = gridCoord mouseY ∧ startSet a1) ∧
      (¬ (¬ startSet a ∧ inBounds W H (gridCoord mouseX) (gridCoord mouseY) = true ∧
          a.grid (gridCoord mouseX) (gridCoord mouseY) ≠ WALL) →
        a1.startX = a.startX ∧ a1.startY = a.startY ∧
          ∀ c : Cell, a1.grid c.1 c.2 = START → a.grid c.1 c.2 = START) ∧
      (a.grid (gridCoord mouseX) (gridCoord mouseY) = WALL → a1 = a) ∧
      (startSet a → a2.startX = a.startX ∧ a2.startY = a.startY) ∧
      (targetSet a → a2.targetX = a.targetX ∧ a2.targetY = a.targetY) := by
  obtain ⟨a2, h2, _, k1, k2⟩ := sound_run later a (reachable_sound hr)
  refine ⟨_, a2, rightClick_eq W H a mouseX mouseY, h2, ?_, ?_, ?_, k1, k2⟩
  · intro h
    rw [rightClicked_sets_start a _ _ h]
    refine ⟨rfl, rfl, rfl, ?_⟩
    unfold startSet
    have hb := inBounds_iff.1 h.2.1
    intro hu
    have hu1 : gridCoord mouseX = -1 := hu.1
    omega
  · exact fun h => rightClicked_no_new_start a _ _ h
  · intro hw
    unfold rightClicked
    rw [if_neg]
    exact fun hb => hb.2 hw

theorem right_click_rules_witness :
    Reachable GRID_WIDTH GRID_HEIGHT startPlaced ∧ startSet startPlaced ∧
      ∃ a1 a2, handleEvent GRID_WIDTH GRID_HEIGHT startPlaced (.MOUSEBUTTONDOWN .RIGHT 45 5) =
          .ok a1 ∧
        handleEvents GRID_WIDTH GRID_HEIGHT startPlaced clicksThenSearch = .ok a2 ∧
        (¬ startSet startPlaced ∧
            inBounds GRID_WIDTH GRID_HEIGHT (gridCoord 45) (gridCoord 5) = true ∧
            startPlaced.grid (gridCoord 45) (gridCoord 5) ≠ WALL →
          a1.grid = startPlaced.grid.set (gridCoord 45) (gridCoord 5) START ∧
            a1.startX = gridCoord 45 ∧ a1.startY = gridCoord 5 ∧ startSet a1) ∧
        (¬ (¬ startSet startPlaced ∧
            inBounds GRID_WIDTH GRID_HEIGHT (gridCoord 45) (gridCoord 5) = true ∧
            startPlaced.grid (gridCoord 45) (gridCoord 5) ≠ WALL) →
          a1.startX = startPlaced.startX ∧ a1.startY = startPlaced.startY ∧
            ∀ c : Cell, a1.grid c.1 c.2 = START → startPlaced.grid c.1 c.2 = START) ∧
        (startPlaced.grid (gridCoord 45) (gridCoord 5) = WALL → a1 = startPlaced) ∧
        (startSet startPlaced →
          a2.startX = startPlaced.startX ∧ a2.startY = startPlaced.startY) ∧
        (targetSet startPlaced →
          a2.targetX = startPlaced.targetX ∧ a2.targetY = startPlaced.targetY) :=
  have hr : Reachable GRID_WIDTH GRID_HEIGHT startPlaced :=
    Reachable.step (.MOUSEBUTTONDOWN .RIGHT 5 5) Reachable.init
      (rightClick_eq GRID_WIDTH GRID_HEIGHT initial 5 5)
  ⟨hr, by decide,
    right_click_rules GRID_WIDTH GRID_HEIGHT startPlaced 45 5 clicksThenSearch hr⟩

/-- C13: in every state reachable from the initial all-Empty grid by left
clicks, right clicks and Space presses (and any other events), at most one
cell holds `START` and at most one cell holds `TARGET`. -/
theorem at_most_one_endpoint (W H : Nat) (a : App) (hr : Reachable W H a) :
    (∀ c1 c2 : Cell, a.grid c1.1 c1.2 = START → a.grid c2.1 c2.2 = START → c1 = c2) ∧
      (∀ c1 c2 : Cell, a.grid c1.1 c1.2 = TARGET → a.grid c2.1 c2.2 = TARGET → c1 = c2) := by
  have hs := reachable_sound hr
  constructor
  · intro c1 c2 h1 h2
    rw [(hs.start_cell c1 h1).1, (hs.start_cell c2 h2).1]
  · intro c1 c2 h1 h2
    rw [(hs.target_cell c1 h1).1, (hs.target_cell c2 h2).1]

theorem at_most_one_endpoint_witness :
    Reachable GRID_WIDTH GRID_HEIGHT targetPlaced ∧
      targetPlaced.grid 0 0 = START ∧ targetPlaced.grid 2 0 = TARGET ∧
      (∀ c1 c2 : Cell, targetPlaced.grid c1.1 c1.2 = START →
        targetPlaced.grid c2.1 c2.2 = START → c1 = c2) ∧
      (∀ c1 c2 : Cell, targetPlaced.grid c1.1 c1.2 = TARGET →
        targetPlaced.grid c2.1 c2.2 = TARGET → c1 = c2) :=
  have hr : Reachable GRID_WIDTH GRID_HEIGHT targetPlaced :=
    Reachable.step (.MOUSEBUTTONDOWN .RIGHT 45 5)
      (Reachable.step (.MOUSEBUTTONDOWN .RIGHT 5 5) Reachable.init
        (rightClick_eq GRID_WIDTH GRID_HEIGHT initial 5 5))
      (rightClick_eq GRID_WIDTH GRID_HEIGHT startPlaced 45 5)
  ⟨hr, by decide, by decide, at_most_one_endpoint GRID_WIDTH GRID_HEIGHT targetPlaced hr⟩

/-- C12, as stated, fails: on the 40×30 grid, after two right clicks that
both land in `(0,0)` the stored start and target are both `(0,0)`, a Space
press calls `findShortestPath`, the cell `(0,0)` holds `TARGET`, and no cell
of the grid holds `START`. -/
theorem target_over_start :
    coordsAfter (handleEvents GRID_WIDTH GRID_HEIGHT initial clicksSameCell) =
        some (0, 0, 0, 0) ∧
      invokesAfter (handleEvents GRID_WIDTH GRID_HEIGHT initial clicksSameCell) = true ∧
      cellAfter (handleEvents GRID_WIDTH GRID_HEIGHT initial clicksSameCell) 0 0 = some TARGET ∧
      stateCountAfter GRID_WIDTH GRID_HEIGHT
        (handleEvents GRID_WIDTH GRID_HEIGHT initial clicksSameCell) START = some 0 := by
  decide

/-- C12, as the code has it: in every state reachable from the initial state,
whenever a Space press calls `findShortestPath`, the press is handled without
a fault and the stored start and target are in bounds; a cell in state `START`
can only be the stored start and a cell in state `TARGET` only the stored
target; and the stored start cell holds `START` unless the target was placed
on that very cell, in which case it holds `TARGET` and no cell holds `START`. -/
theorem search_invocation_state (W H : Nat) (a : App) (hr : Reachable W H a)
    (hinv : invokesSearch a) :
    (∃ a1, handleEvent W H a (.KEYDOWN true) = .ok a1) ∧
      inBounds W H a.startX a.startY = true ∧ inBounds W H a.targetX a.targetY = true ∧
      (∀ c : Cell, a.grid c.1 c.2 = START → c = (a.startX, a.startY)) ∧
      (∀ c : Cell, a.grid c.1 c.2 = TARGET → c = (a.targetX, a.targetY)) ∧
      (¬ (a.startX = a.targetX ∧ a.startY = a.targetY) → a.grid a.startX a.startY = START) ∧
      (a.startX = a.targetX ∧ a.startY = a.targetY →
        a.grid a.startX a.startY = TARGET ∧ ∀ c : Cell, a.grid c.1 c.2 ≠ START) := by
  have hs := reachable_sound hr
  have hk := reachable_startKept hr
  have hset : startSet a := fun hu => hinv.1 hu.1
  have hsb : inBounds W H a.startX a.startY = true := by
    rcases hs.start_ok with hu | hb
    · exact absurd hu.1 hinv.1
    · exact hb
  have htb : inBounds W H a.targetX a.targetY = true := by
    rcases hs.target_ok with hu | hb
    · exact absurd hu.1 hinv.2.2.1
    · exact hb
  obtain ⟨a1, h1, _⟩ := sound_step hs (.KEYDOWN true)
  refine ⟨⟨a1, h1⟩, hsb, htb, fun c hc => (hs.start_cell c hc).1,
    fun c hc => (hs.target_cell c hc).1, ?_, ?_⟩
  · intro hne
    rcases hk.1 hset with h2 | h2
    · exact h2.1
    · exact absurd ⟨h2.1, h2.2.1⟩ hne
  · intro heq
    rcases hk.1 hset with h2 | h2
    · exact absurd heq h2.2
    · refine ⟨h2.2.2, ?_⟩
      intro c hc
      have hcs := (hs.start_cell c hc).1
      rw [hcs] at hc
      have hc1 : a.grid a.startX a.startY = START := hc
      rw [h2.2.2] at hc1
      exact CellState.noConfusion hc1

theorem search_invocation_state_witness :
    Reachable GRID_WIDTH GRID_HEIGHT targetPlaced ∧ invokesSearch targetPlaced ∧
      (∃ a1, handleEvent GRID_WIDTH GRID_HEIGHT targetPlaced (.KEYDOWN true) = .ok a1) ∧
      inBounds GRID_WIDTH GRID_HEIGHT targetPlaced.startX targetPlaced.startY = true ∧
      inBounds GRID_WIDTH GRID_HEIGHT targetPlaced.targetX targetPlaced.targetY = true ∧
      (∀ c : Cell, targetPlaced.grid c.1 c.2 = START →
        c = (targetPlaced.startX, targetPlaced.startY)) ∧
      (∀ c : Cell, targetPlaced.grid c.1 c.2 = TARGET →
        c = (targetPlaced.targetX, targetPlaced.targetY)) ∧
      (¬ (targetPlaced.startX = targetPlaced.targetX ∧
          targetPlaced.startY = targetPlaced.targetY) →
        targetPlaced.grid targetPlaced.startX targetPlaced.startY = START) ∧
      (targetPlaced.startX = targetPlaced.targetX ∧
          targetPlaced.startY = targetPlaced.targetY →
        targetPlaced.grid targetPlaced.startX targetPlaced.startY = TARGET ∧
          ∀ c : Cell, targetPlaced.grid c.1 c.2 ≠ START) :=
  have hr : Reachable GRID_WIDTH GRID_HEIGHT targetPlaced :=
    Reachable.step (.MOUSEBUTTONDOWN .RIGHT 45 5)
      (Reachable.step (.MOUSEBUTTONDOWN .RIGHT 5 5) Reachable.init
        (rightClick_eq GRID_WIDTH GRID_HEIGHT initial 5 5))
      (rightClick_eq GRID_WIDTH GRID_HEIGHT startPlaced 45 5)
  ⟨hr, by decide,
    search_invocation_state GRID_WIDTH GRID_HEIGHT targetPlaced hr (by decide)⟩

/-- The painted target at the level of the event loop, on the 40×30 grid:
after a right click in `(0,0)`, a right click in `(2,0)` and a Space press,
the stored coordinates are still `(0,0)` and `(2,0)` and a further Space press
calls `findShortestPath`, but the stored target cell holds `PATH` and no cell
of the grid holds `TARGET`. -/
theorem second_search_without_target :
    coordsAfter (handleEvents GRID_WIDTH GRID_HEIGHT initial clicksThenSearch) =
        some (0, 0, 2, 0) ∧
      invokesAfter (handleEvents GRID_WIDTH GRID_HEIGHT initial clicksThenSearch) = true ∧
      cellAfter (handleEvents GRID_WIDTH GRID_HEIGHT initial clicksThenSearch) 2 0 = some PATH ∧
      stateCountAfter GRID_WIDTH GRID_HEIGHT
        (handleEvents GRID_WIDTH GRID_HEIGHT initial clicksThenSearch) TARGET = some 0 := by
  decide

end Pathfinding
